/-
Verification of the statsd_exporter ingest pipeline (glightfoot/statsd_exporter).

This file gives a shallow embedding of the core of the exporter:

* the StatsD line parser (`lineToEvents` and its helpers, from the main
  package source), including the self-counters it bumps per error kind;
* the event dispatcher (`handleEvent`), the four typed metric containers
  (`CounterContainer.Get` and friends) and the exposition-library registry
  they register with;
* the TTL staleness sweeper (`removeStaleMetrics`) and the label-value
  record table (`saveLabelValues`);
* the two mapper-cache variants (the LRU cache and the fastcache/XDR cache).

Modelling conventions:

* Go strings are `List Char` (`GoStr`).  All delimiters split on are ASCII,
  where Go's byte-level splitting agrees with character-level splitting on
  valid UTF-8 input.  A Lean string is always valid UTF-8, so the parser's
  `utf8.ValidString` test is constantly true in the model and does not
  appear (its branch is unreachable for representable inputs).
* Go `float64` values are modelled as `ℚ`: the parser's values, sampling
  factors and the dispatcher's series values are exact rationals, and
  `float64` division and comparison are rational division and comparison.
* Go `map[string]string` is an association list with unique keys, written
  to with `setVal` (Go map assignment overwrites).
* A Go runtime panic is modelled as `none` in an `Option` result.
* Counters such as `sampleErrors.WithLabelValues(...).Inc()` are modelled
  by a `Stats` record of naturals threaded through the parser.
-/
import Mathlib

namespace SE

/-- Go strings, as lists of characters. -/
abbrev GoStr := List Char

/-- A Go `map[string]string`, as an association list with unique keys. -/
abbrev Labels := List (GoStr × GoStr)

/-- Lookup in an association list (Go map read). -/
def findVal {κ α : Type} [DecidableEq κ] : List (κ × α) → κ → Option α
  | [], _ => none
  | p :: rest, k => if p.1 = k then some p.2 else findVal rest k

/-- Go map assignment `m[k] = v`: overwrite if present, append otherwise. -/
def setVal {κ α : Type} [DecidableEq κ] : List (κ × α) → κ → α → List (κ × α)
  | [], k, v => [(k, v)]
  | p :: rest, k, v => if p.1 = k then (k, v) :: rest else p :: setVal rest k v

/-- Go map `delete(m, k)`. -/
def delVal {κ α : Type} [DecidableEq κ] : List (κ × α) → κ → List (κ × α)
  | [], _ => []
  | p :: rest, k => if p.1 = k then delVal rest k else p :: delVal rest k

/-- Go `strings.SplitN(s, sep, 2)` for a one-character separator: the part
before the first occurrence, and (when the separator occurs) the rest. -/
def splitFirst (c : Char) : GoStr → GoStr × Option GoStr
  | [] => ([], none)
  | x :: xs =>
    if x = c then ([], some xs)
    else
      let r := splitFirst c xs
      (x :: r.1, r.2)

/-- Go `strings.Split(s, sep)` for a one-character separator. -/
def goSplit (c : Char) : GoStr → List GoStr
  | [] => [[]]
  | x :: xs =>
    if x = c then [] :: goSplit c xs
    else
      match goSplit c xs with
      | h :: t => (x :: h) :: t
      | [] => [[x]]

/-- Go `strings.Contains(s, "|#")`. -/
def containsPipeHash : GoStr → Bool
  | '|' :: '#' :: _ => true
  | _ :: rest => containsPipeHash rest
  | [] => false

/-- Go `strings.TrimPrefix(s, "#")`: drop one leading `#` if present. -/
def trimHash : GoStr → GoStr
  | '#' :: rest => rest
  | s => s

/-- The parser's relative-gauge test: `strings.Index(valueStr, "+") == 0 ||
strings.Index(valueStr, "-") == 0`. -/
def isRelativeValue : GoStr → Bool
  | '+' :: _ => true
  | '-' :: _ => true
  | _ => false

/-- Decimal digit string to a natural number. -/
def digitsVal (ds : GoStr) : Nat :=
  ds.foldl (fun a c => a * 10 + (c.toNat - '0'.toNat)) 0

/-- Ten to a natural power, as a rational. -/
def pow10 (n : Nat) : ℚ := (10 : ℚ) ^ n

/-- Go `strconv.ParseFloat(s, 64)`, modelled exactly over the finite decimal
literals `[+-]? digits [. digits] [(e|E) [+-]? digits]` (at least one mantissa
digit, nothing left over), returning the exact rational value.  The special
forms Go additionally accepts (`Inf`, `NaN`, hex floats, digit-separating
underscores) are outside the model and parse to `none`. -/
def parseGoFloat (s : GoStr) : Option ℚ :=
  let sgn : ℚ × GoStr :=
    match s with
    | '+' :: r => (1, r)
    | '-' :: r => (-1, r)
    | r => (1, r)
  let s1 := sgn.2
  let ip := s1.takeWhile Char.isDigit
  let s2 := s1.dropWhile Char.isDigit
  let fpPart : Option GoStr × GoStr :=
    match s2 with
    | '.' :: r => (some (r.takeWhile Char.isDigit), r.dropWhile Char.isDigit)
    | _ => (none, s2)
  let fp := fpPart.1
  let s3 := fpPart.2
  if ip.isEmpty && (fp.getD []).isEmpty then none
  else
    let mant : ℚ := (digitsVal ip : ℚ) +
      (match fp with
       | some d => (digitsVal d : ℚ) / pow10 d.length
       | none => 0)
    match s3 with
    | [] => some (sgn.1 * mant)
    | e :: r =>
      if e = 'e' ∨ e = 'E' then
        let esgn : Bool × GoStr :=
          match r with
          | '+' :: q => (false, q)
          | '-' :: q => (true, q)
          | q => (false, q)
        let ed := esgn.2.takeWhile Char.isDigit
        let rest := esgn.2.dropWhile Char.isDigit
        if ed.isEmpty ∨ ¬ rest.isEmpty then none
        else
          let mag := pow10 (digitsVal ed)
          some (sgn.1 * (if esgn.1 then mant / mag else mant * mag))
      else none

/-- Characters the regexp `[^a-zA-Z0-9_]` leaves untouched. -/
def isLegalMetricChar (c : Char) : Bool :=
  ('a' ≤ c && c ≤ 'z') || ('A' ≤ c && c ≤ 'Z') || ('0' ≤ c && c ≤ '9') || c = '_'

/-- `escapeMetricName`: prepend `_` if the first character is a digit, then
replace every character outside `[a-zA-Z0-9_]` with `_`.  The Go source
indexes `metricName[0]` unconditionally, so the empty string makes it panic
with an index-out-of-range error, which the model renders as `none`. -/
def escapeMetricName : GoStr → Option GoStr
  | [] => none
  | c :: cs =>
    let s := if '0' ≤ c ∧ c ≤ '9' then '_' :: c :: cs else c :: cs
    some (s.map (fun ch => if isLegalMetricChar ch then ch else '_'))

/-- Go `int(q)` conversion from `float64`: truncation toward zero. -/
def goTrunc (q : ℚ) : Int := if 0 ≤ q then ⌊q⌋ else -⌊-q⌋

/-- The self-counters the parser bumps (each field is one label of
`statsd_exporter_sample_errors_total`, `statsd_exporter_tags_total` etc.). -/
structure Stats where
  samplesReceived : Nat
  tagsReceived : Nat
  tagErrors : Nat
  malformedLine : Nat
  malformedComponent : Nat
  malformedValue : Nat
  illegalSampleFactor : Nat
  invalidSampleFactor : Nat
  illegalEvent : Nat
deriving DecidableEq

def Stats.zero : Stats := ⟨0, 0, 0, 0, 0, 0, 0, 0, 0⟩

def Stats.incSamplesReceived (s : Stats) : Stats :=
  { s with samplesReceived := s.samplesReceived + 1 }

def Stats.incTagsReceived (s : Stats) : Stats :=
  { s with tagsReceived := s.tagsReceived + 1 }

def Stats.incTagErrors (s : Stats) : Stats :=
  { s with tagErrors := s.tagErrors + 1 }

def Stats.incMalformedLine (s : Stats) : Stats :=
  { s with malformedLine := s.malformedLine + 1 }

def Stats.incMalformedComponent (s : Stats) : Stats :=
  { s with malformedComponent := s.malformedComponent + 1 }

def Stats.incMalformedValue (s : Stats) : Stats :=
  { s with malformedValue := s.malformedValue + 1 }

def Stats.incIllegalSampleFactor (s : Stats) : Stats :=
  { s with illegalSampleFactor := s.illegalSampleFactor + 1 }

def Stats.incInvalidSampleFactor (s : Stats) : Stats :=
  { s with invalidSampleFactor := s.invalidSampleFactor + 1 }

def Stats.addIllegalEvent (s : Stats) (n : Nat) : Stats :=
  { s with illegalEvent := s.illegalEvent + n }

/-- The parser's event type: the three shapes built by `buildEvent`. -/
inductive Event where
  | counter (metricName : GoStr) (value : ℚ) (labels : Labels)
  | gauge (metricName : GoStr) (value : ℚ) (relative : Bool) (labels : Labels)
  | timer (metricName : GoStr) (value : ℚ) (labels : Labels)
deriving DecidableEq

def Event.metricName : Event → GoStr
  | .counter n _ _ => n
  | .gauge n _ _ _ => n
  | .timer n _ _ => n

def Event.value : Event → ℚ
  | .counter _ v _ => v
  | .gauge _ v _ _ => v
  | .timer _ v _ => v

def Event.labels : Event → Labels
  | .counter _ _ l => l
  | .gauge _ _ _ l => l
  | .timer _ _ l => l

/-- `buildEvent`: `c` is a counter, `g` a gauge, `ms` and `h` timers; `s`
(sets) and unknown types are construction errors. -/
def buildEvent (statType metric : GoStr) (value : ℚ) (relative : Bool)
    (labels : Labels) : Option Event :=
  if statType = ['c'] then some (.counter metric value labels)
  else if statType = ['g'] then some (.gauge metric value relative labels)
  else if statType = ['m', 's'] ∨ statType = ['h'] then some (.timer metric value labels)
  else none

/-- The tag loop of `parseDogStatsDTagsToLabels`: per tag, trim one `#`,
split on the first `:`; tags without `:` or with an empty value bump
`tagErrors` and are skipped; otherwise the sanitized key is written into the
label map.  A tag with an empty key and a nonempty value reaches
`escapeMetricName ""`, which panics (`none`). -/
def dogTagsLoop : List GoStr → Labels → Stats → Option (Labels × Stats)
  | [], lbls, st => some (lbls, st)
  | t :: rest, lbls, st =>
    let t' := trimHash t
    match splitFirst ':' t' with
    | (k, some v) =>
      if v.length = 0 then dogTagsLoop rest lbls st.incTagErrors
      else
        match escapeMetricName k with
        | none => none
        | some ek => dogTagsLoop rest (setVal lbls ek v) st
    | (_, none) => dogTagsLoop rest lbls st.incTagErrors

/-- `parseDogStatsDTagsToLabels`: bump `tagsReceived`, split the component on
`,` and run the tag loop starting from an empty label map. -/
def parseDogStatsDTagsToLabels (component : GoStr) (st : Stats) :
    Option (Labels × Stats) :=
  dogTagsLoop (goSplit ',' component) [] st.incTagsReceived

/-- The modifier loop of `lineToEvents` over `components[2:]`, threading the
sample value, the timer replication count (`multiplyEvents`), the label map
and the self-counters.  `@` is legal only for `c` and `ms` (else
`illegalSampleFactor`); an unparseable rate bumps `invalidSampleFactor` and
leaves the factor at Go `ParseFloat`'s error result `0`, which the following
zero-test resets to `1`; for `c` the value is divided by the factor, for `ms`
the replication count becomes `int(1/factor)`.  `#` parses DogStatsD tags
(replacing the label map); any other leading character bumps
`invalidSampleFactor`. -/
def modifierLoop (statType : GoStr) :
    List GoStr → ℚ → Int → Labels → Stats → Option (ℚ × Int × Labels × Stats)
  | [], value, mult, labels, st => some (value, mult, labels, st)
  | comp :: rest, value, mult, labels, st =>
    match comp with
    | [] => none
    | c :: compRest =>
      if c = '@' then
        if statType ≠ ['c'] ∧ statType ≠ ['m', 's'] then
          modifierLoop statType rest value mult labels st.incIllegalSampleFactor
        else
          let parsed : ℚ × Stats :=
            match parseGoFloat compRest with
            | some x => (x, st)
            | none => (0, st.incInvalidSampleFactor)
          let sf := if parsed.1 = 0 then 1 else parsed.1
          if statType = ['c'] then
            modifierLoop statType rest (value / sf) mult labels parsed.2
          else
            modifierLoop statType rest value (goTrunc (1 / sf)) labels parsed.2
      else if c = '#' then
        match parseDogStatsDTagsToLabels comp st with
        | none => none
        | some (lbls, st') => modifierLoop statType rest value mult lbls st'
      else
        modifierLoop statType rest value mult labels st.incInvalidSampleFactor

/-- One iteration of the per-sample body of `lineToEvents`: bump
`samplesReceived`, split on `|`, require 2 to 4 components
(`malformedComponent`), parse the value (`malformedValue`), reject empty
modifier components (`malformedComponent`), run the modifier loop, then run
the build loop `multiplyEvents` times — each failing build bumps
`illegalEvent`. -/
def processSample (metric sample : GoStr) (st : Stats) :
    Option (List Event × Stats) :=
  let st := st.incSamplesReceived
  match goSplit '|' sample with
  | valueStr :: statType :: rest =>
    if rest.length > 2 then some ([], st.incMalformedComponent)
    else
      let relative := isRelativeValue valueStr
      match parseGoFloat valueStr with
      | none => some ([], st.incMalformedValue)
      | some value =>
        if rest.any (fun comp => comp.isEmpty) then some ([], st.incMalformedComponent)
        else
          match modifierLoop statType rest value 1 [] st with
          | none => none
          | some (value', mult, labels, st') =>
            match buildEvent statType metric value' relative labels with
            | some e => some (List.replicate mult.toNat e, st')
            | none => some ([], st'.addIllegalEvent mult.toNat)
  | _ => some ([], st.incMalformedComponent)

/-- The `samples:` loop of `lineToEvents`. -/
def samplesLoop (metric : GoStr) :
    List GoStr → List Event → Stats → Option (List Event × Stats)
  | [], acc, st => some (acc, st)
  | sample :: rest, acc, st =>
    match processSample metric sample st with
    | none => none
    | some (evs, st') => samplesLoop metric rest (acc ++ evs) st'

/-- `lineToEvents`: the empty line returns no events (and bumps nothing);
a line without `:` or with an empty name bumps `malformedLine`; a body
containing `|#` is a single DogStatsD sample, otherwise the body is split on
`:` into samples.  Returns the events and the self-counter increments, or
`none` when the Go code would panic. -/
def lineToEvents (line : GoStr) : Option (List Event × Stats) :=
  if line = [] then some ([], Stats.zero)
  else
    match splitFirst ':' line with
    | (_, none) => some ([], Stats.zero.incMalformedLine)
    | (metric, some rest) =>
      if metric = [] then some ([], Stats.zero.incMalformedLine)
      else
        let samples := if containsPipeHash rest then [rest] else goSplit ':' rest
        samplesLoop metric samples [] Stats.zero

/-! ## The dispatcher, the typed registry and the TTL sweeper -/

/-- Lexicographic order on Go strings (`sort.Strings` comparison). -/
def goStrLe : GoStr → GoStr → Bool
  | [], _ => true
  | _ :: _, [] => false
  | a :: as, b :: bs => if a = b then goStrLe as bs else decide (a.toNat ≤ b.toNat)

def insertSortedStr (x : GoStr) : List GoStr → List GoStr
  | [] => [x]
  | y :: ys => if goStrLe x y then x :: y :: ys else y :: insertSortedStr x ys

/-- Sorted list of the label names of a label map (`labelNames` in the
source: collect the keys and `sort.Strings` them). -/
def labelNames (labels : Labels) : List GoStr :=
  (labels.map Prod.fst).foldr insertSortedStr []

def insertSortedPair (x : GoStr × GoStr) : Labels → Labels
  | [] => [x]
  | y :: ys => if goStrLe x.1 y.1 then x :: y :: ys else y :: insertSortedPair x ys

/-- Canonical form of a label map: sorted by key.  This models the
name-and-labels fingerprint `hashNameAndLabels` computes (two maps with the
same key/value set get the same fingerprint) and the label-value tuple that
keys a child inside a metric vector. -/
def canonLabels (l : Labels) : Labels := l.foldr insertSortedPair []

/-- A registered metric vector: the sorted label names fixed at creation,
the help string, and the type-specific parameters (summary objectives,
histogram buckets). -/
structure Vec where
  names : List GoStr
  help : GoStr
  objectives : List (ℚ × ℚ)
  buckets : List ℚ
deriving DecidableEq

/-- A child time series is keyed by metric name and canonical label map. -/
abbrev SeriesKey := GoStr × Labels

/-- The typed registry: the exposition library's registration table (`expo`,
names successfully registered, in order), the log of every `Register` call
made, the four containers' `Elements` tables, and the child series of each
family (counters/gauges hold a value, summaries/histograms the list of
observations). -/
structure RegState where
  expo : List GoStr
  registerCalls : List GoStr
  counters : List (GoStr × Vec)
  gauges : List (GoStr × Vec)
  summaries : List (GoStr × Vec)
  histograms : List (GoStr × Vec)
  counterVals : List (SeriesKey × ℚ)
  gaugeVals : List (SeriesKey × ℚ)
  summaryObs : List (SeriesKey × List ℚ)
  histogramObs : List (SeriesKey × List ℚ)
deriving DecidableEq

def RegState.empty : RegState := ⟨[], [], [], [], [], [], [], [], [], []⟩

/-- Result of a container `Get`: success flag plus the updated `Elements`
table, exposition registry and register-call log. -/
structure GetRes where
  ok : Bool
  elems : List (GoStr × Vec)
  expo : List GoStr
  registerCalls : List GoStr

/-- The shared shape of the four container `Get`s: if the name is unknown,
build a vector over `sorted(keys(labels))` and call the exposition library's
`Register` — which fails when the name is already registered (by any
family); on success record the vector.  If the name is known, resolve the
child, which fails when the label names do not match the vector's.  Every
`Register` call (successful or not) is logged. -/
def containerGet (elems : List (GoStr × Vec)) (expo registerCalls : List GoStr)
    (name : GoStr) (lnames : List GoStr) (vec : Vec) : GetRes :=
  match findVal elems name with
  | some v =>
    if v.names = lnames then ⟨true, elems, expo, registerCalls⟩
    else ⟨false, elems, expo, registerCalls⟩
  | none =>
    let calls := registerCalls ++ [name]
    if name ∈ expo then ⟨false, elems, expo, calls⟩
    else ⟨true, setVal elems name vec, expo ++ [name], calls⟩

/-- Ensure a child exists with an initial value (`GetMetricWith`). -/
def ensureChild {α : Type} (vals : List (SeriesKey × α)) (k : SeriesKey)
    (init : α) : List (SeriesKey × α) :=
  match findVal vals k with
  | some _ => vals
  | none => setVal vals k init

/-- `CounterContainer.Get`. -/
def counterGet (reg : RegState) (name : GoStr) (labels : Labels) (help : GoStr) :
    Bool × RegState :=
  let lnames := labelNames labels
  let r := containerGet reg.counters reg.expo reg.registerCalls name lnames
    ⟨lnames, help, [], []⟩
  if r.ok then
    (true,
      { reg with
        counters := r.elems
        expo := r.expo
        registerCalls := r.registerCalls
        counterVals := ensureChild reg.counterVals (name, canonLabels labels) 0 })
  else
    (false,
      { reg with
        counters := r.elems
        expo := r.expo
        registerCalls := r.registerCalls })

/-- `GaugeContainer.Get`. -/
def gaugeGet (reg : RegState) (name : GoStr) (labels : Labels) (help : GoStr) :
    Bool × RegState :=
  let lnames := labelNames labels
  let r := containerGet reg.gauges reg.expo reg.registerCalls name lnames
    ⟨lnames, help, [], []⟩
  if r.ok then
    (true,
      { reg with
        gauges := r.elems
        expo := r.expo
        registerCalls := r.registerCalls
        gaugeVals := ensureChild reg.gaugeVals (name, canonLabels labels) 0 })
  else
    (false,
      { reg with
        gauges := r.elems
        expo := r.expo
        registerCalls := r.registerCalls })

/-- How a metric is handled once mapped (subset of the mapper's decision the
dispatcher reads). -/
inductive ActionType where
  | map
  | drop
deriving DecidableEq

/-- The mapping's timer handling: unset (Go `TimerTypeDefault`, the empty
string), summary, or histogram. -/
inductive TimerType where
  | unset
  | summary
  | histogram
deriving DecidableEq

/-- The fields of `mapper.MetricMapping` the dispatcher reads. -/
structure MetricMapping where
  name : GoStr
  action : ActionType
  helpText : GoStr
  ttl : ℚ
  timerType : TimerType
  buckets : List ℚ
  quantiles : List (ℚ × ℚ)
deriving DecidableEq

/-- The zero value `&mapper.MetricMapping{}`. -/
def emptyMapping : MetricMapping := ⟨[], .map, [], 0, .unset, [], []⟩

/-- The mapper's defaults the dispatcher and containers fall back to. -/
structure MapperDefaults where
  ttl : ℚ
  timerType : TimerType
  buckets : List ℚ
  quantiles : List (ℚ × ℚ)
deriving DecidableEq

/-- `SummaryContainer.Get`: quantile objectives come from the mapping when
nonempty, else from the mapper defaults. -/
def summaryGet (reg : RegState) (name : GoStr) (labels : Labels) (help : GoStr)
    (mapping : MetricMapping) (d : MapperDefaults) : Bool × RegState :=
  let lnames := labelNames labels
  let quantiles := if mapping.quantiles ≠ [] then mapping.quantiles else d.quantiles
  let r := containerGet reg.summaries reg.expo reg.registerCalls name lnames
    ⟨lnames, help, quantiles, []⟩
  if r.ok then
    (true,
      { reg with
        summaries := r.elems
        expo := r.expo
        registerCalls := r.registerCalls
        summaryObs := ensureChild reg.summaryObs (name, canonLabels labels) [] })
  else
    (false,
      { reg with
        summaries := r.elems
        expo := r.expo
        registerCalls := r.registerCalls })

/-- `HistogramContainer.Get`: buckets come from the mapping when nonempty,
else from the mapper defaults. -/
def histogramGet (reg : RegState) (name : GoStr) (labels : Labels) (help : GoStr)
    (mapping : MetricMapping) (d : MapperDefaults) : Bool × RegState :=
  let lnames := labelNames labels
  let buckets := if mapping.buckets ≠ [] then mapping.buckets else d.buckets
  let r := containerGet reg.histograms reg.expo reg.registerCalls name lnames
    ⟨lnames, help, [], buckets⟩
  if r.ok then
    (true,
      { reg with
        histograms := r.elems
        expo := r.expo
        registerCalls := r.registerCalls
        histogramObs := ensureChild reg.histogramObs (name, canonLabels labels) [] })
  else
    (false,
      { reg with
        histograms := r.elems
        expo := r.expo
        registerCalls := r.registerCalls })

/-- `counter.Add(v)` on the resolved child. -/
def counterAdd (reg : RegState) (name : GoStr) (labels : Labels) (v : ℚ) : RegState :=
  let k : SeriesKey := (name, canonLabels labels)
  { reg with counterVals := setVal reg.counterVals k ((findVal reg.counterVals k).getD 0 + v) }

/-- `gauge.Add(v)`. -/
def gaugeAdd (reg : RegState) (name : GoStr) (labels : Labels) (v : ℚ) : RegState :=
  let k : SeriesKey := (name, canonLabels labels)
  { reg with gaugeVals := setVal reg.gaugeVals k ((findVal reg.gaugeVals k).getD 0 + v) }

/-- `gauge.Set(v)`. -/
def gaugeSet (reg : RegState) (name : GoStr) (labels : Labels) (v : ℚ) : RegState :=
  let k : SeriesKey := (name, canonLabels labels)
  { reg with gaugeVals := setVal reg.gaugeVals k v }

/-- `summary.Observe(v)`. -/
def summaryObserve (reg : RegState) (name : GoStr) (labels : Labels) (v : ℚ) : RegState :=
  let k : SeriesKey := (name, canonLabels labels)
  { reg with summaryObs := setVal reg.summaryObs k ((findVal reg.summaryObs k).getD [] ++ [v]) }

/-- `histogram.Observe(v)`. -/
def histogramObserve (reg : RegState) (name : GoStr) (labels : Labels) (v : ℚ) : RegState :=
  let k : SeriesKey := (name, canonLabels labels)
  { reg with histogramObs := setVal reg.histogramObs k ((findVal reg.histogramObs k).getD [] ++ [v]) }

/-- The observations of a child series, empty when the child is absent. -/
def obsOf (vals : List (SeriesKey × List ℚ)) (k : SeriesKey) : List ℚ :=
  (findVal vals k).getD []

/-- A `LabelValues` record: time of the most recent observation, the original
label map (kept for later deletion) and the effective TTL. -/
structure LVRecord where
  lastRegisteredAt : ℚ
  labels : Labels
  ttl : ℚ
deriving DecidableEq

/-- The per-kind success counters `eventStats.WithLabelValues(...)`. -/
structure EventStats where
  counter : Nat
  gauge : Nat
  timer : Nat
  illegalNegativeCounter : Nat
deriving DecidableEq

def EventStats.zero : EventStats := ⟨0, 0, 0, 0⟩

def EventStats.incCounter (s : EventStats) : EventStats := { s with counter := s.counter + 1 }
def EventStats.incGauge (s : EventStats) : EventStats := { s with gauge := s.gauge + 1 }
def EventStats.incTimer (s : EventStats) : EventStats := { s with timer := s.timer + 1 }
def EventStats.incIllegalNegativeCounter (s : EventStats) : EventStats :=
  { s with illegalNegativeCounter := s.illegalNegativeCounter + 1 }

/-- The per-kind conflict counters `conflictingEventStats.WithLabelValues(...)`. -/
structure ConflictStats where
  counter : Nat
  gauge : Nat
  timer : Nat
deriving DecidableEq

def ConflictStats.zero : ConflictStats := ⟨0, 0, 0⟩

def ConflictStats.incCounter (s : ConflictStats) : ConflictStats := { s with counter := s.counter + 1 }
def ConflictStats.incGauge (s : ConflictStats) : ConflictStats := { s with gauge := s.gauge + 1 }
def ConflictStats.incTimer (s : ConflictStats) : ConflictStats := { s with timer := s.timer + 1 }

/-- The exporter's state: the typed registry, the `labelValues` record table
(keyed by metric name and label fingerprint, here the canonical label map),
and the dispatcher's self-counters. -/
structure ExpState where
  reg : RegState
  labelValues : List (SeriesKey × LVRecord)
  eventStats : EventStats
  conflictingEventStats : ConflictStats
  eventsUnmapped : Nat
deriving DecidableEq

def ExpState.empty : ExpState := ⟨RegState.empty, [], EventStats.zero, ConflictStats.zero, 0⟩

/-- `saveLabelValues`: create the record if absent (remembering the label map
and TTL), then stamp `lastRegisteredAt` with the current time and refresh the
TTL from the mapping. -/
def saveLabelValues (s : ExpState) (name : GoStr) (labels : Labels)
    (ttl now : ℚ) : ExpState :=
  match findVal s.labelValues (name, canonLabels labels) with
  | some lv =>
    { s with
      labelValues :=
        setVal s.labelValues (name, canonLabels labels)
          { lv with lastRegisteredAt := now, ttl := ttl } }
  | none =>
    { s with
      labelValues :=
        setVal s.labelValues (name, canonLabels labels) ⟨now, labels, ttl⟩ }

/-- The default help string. -/
def defaultHelp : GoStr := "Metric autogenerated by statsd_exporter.".toList

/-- The mapping the dispatcher works with: the mapper's result, or the
synthesized `&MetricMapping{}` inheriting the default TTL. -/
def effectiveMapping (d : MapperDefaults) (m : Option MetricMapping) : MetricMapping :=
  match m with
  | some mp => mp
  | none => if d.ttl ≠ 0 then { emptyMapping with ttl := d.ttl } else emptyMapping

/-- The help text: the mapping's override or the default. -/
def effHelp (m : MetricMapping) : GoStr :=
  if m.helpText ≠ [] then m.helpText else defaultHelp

/-- The timer type the dispatcher routes on: the mapping's, falling back to
the mapper default when unset. -/
def effTimerType (d : MapperDefaults) (m : MetricMapping) : TimerType :=
  if m.timerType = TimerType.unset then d.timerType else m.timerType

/-- The label-merge step of `handleEvent` when the mapper matched: each
mapper label is written into the event's own label map, overwriting any
value that arrived on the wire. -/
def mergeMapperLabels (eventLabels mapperLabels : Labels) : Labels :=
  mapperLabels.foldl (fun acc kv => setVal acc kv.1 kv.2) eventLabels

/-- The effective-name-and-labels step of `handleEvent`: on a mapper match,
the escaped mapping name and the merged labels; otherwise bump
`eventsUnmapped` and use the escaped event name with the wire labels.
`none` models the `escapeMetricName` panic on an empty name. -/
def resolveNameLabels (ev : Event) (mapping : MetricMapping)
    (mapperLabels : Labels) (present : Bool) (s : ExpState) :
    Option (GoStr × Labels × ExpState) :=
  if present then
    match escapeMetricName mapping.name with
    | none => none
    | some n => some (n, mergeMapperLabels ev.labels mapperLabels, s)
  else
    match escapeMetricName ev.metricName with
    | none => none
    | some n => some (n, ev.labels, { s with eventsUnmapped := s.eventsUnmapped + 1 })

/-- The `*CounterEvent` arm of `handleEvent`'s type switch. -/
def handleCounter (s : ExpState) (name : GoStr) (plabels : Labels)
    (help : GoStr) (ttl now v : ℚ) : ExpState :=
  if v < 0 then
    { s with eventStats := s.eventStats.incIllegalNegativeCounter }
  else
    match counterGet s.reg name plabels help with
    | (ok, reg') =>
      if ok then
        let s' := saveLabelValues { s with reg := counterAdd reg' name plabels v }
          name plabels ttl now
        { s' with eventStats := s'.eventStats.incCounter }
      else
        { s with
          reg := reg'
          conflictingEventStats := s.conflictingEventStats.incCounter }

/-- The `*GaugeEvent` arm of `handleEvent`'s type switch. -/
def handleGauge (s : ExpState) (name : GoStr) (plabels : Labels)
    (help : GoStr) (ttl now v : ℚ) (relative : Bool) : ExpState :=
  match gaugeGet s.reg name plabels help with
  | (ok, reg') =>
    if ok then
      let reg'' := if relative then gaugeAdd reg' name plabels v else gaugeSet reg' name plabels v
      let s' := saveLabelValues { s with reg := reg'' } name plabels ttl now
      { s' with eventStats := s'.eventStats.incGauge }
    else
      { s with
        reg := reg'
        conflictingEventStats := s.conflictingEventStats.incGauge }

/-- The `*TimerEvent` arm of `handleEvent`'s type switch: route on the
effective timer type (histogram, else summary — Go's `TimerTypeDefault,
TimerTypeSummary` case) and observe `value/1000`, converting milliseconds to
seconds. -/
def handleTimer (d : MapperDefaults) (mapping : MetricMapping) (s : ExpState)
    (name : GoStr) (plabels : Labels) (help : GoStr) (now v : ℚ) : ExpState :=
  if effTimerType d mapping = TimerType.histogram then
    match histogramGet s.reg name plabels help mapping d with
    | (ok, reg') =>
      if ok then
        let s' := saveLabelValues { s with reg := histogramObserve reg' name plabels (v / 1000) }
          name plabels mapping.ttl now
        { s' with eventStats := s'.eventStats.incTimer }
      else
        { s with
          reg := reg'
          conflictingEventStats := s.conflictingEventStats.incTimer }
  else
    match summaryGet s.reg name plabels help mapping d with
    | (ok, reg') =>
      if ok then
        let s' := saveLabelValues { s with reg := summaryObserve reg' name plabels (v / 1000) }
          name plabels mapping.ttl now
        { s' with eventStats := s'.eventStats.incTimer }
      else
        { s with
          reg := reg'
          conflictingEventStats := s.conflictingEventStats.incTimer }

/-- `Exporter.handleEvent`, with the mapper's `GetMapping` result passed in
(`m`, `mapperLabels`, `present`) and the wall clock passed as `now`.  A drop
action returns immediately; otherwise the effective name and labels are
resolved and the event is routed by kind.  `none` models a panic. -/
def handleEvent (d : MapperDefaults) (m : Option MetricMapping)
    (mapperLabels : Labels) (present : Bool) (ev : Event) (now : ℚ)
    (s : ExpState) : Option ExpState :=
  let mapping := effectiveMapping d m
  if mapping.action = ActionType.drop then some s
  else
    let help := effHelp mapping
    match resolveNameLabels ev mapping mapperLabels present s with
    | none => none
    | some (name, plabels, s₁) =>
      match ev with
      | .counter _ v _ => some (handleCounter s₁ name plabels help mapping.ttl now v)
      | .gauge _ v relative _ => some (handleGauge s₁ name plabels help mapping.ttl now v relative)
      | .timer _ v _ => some (handleTimer d mapping s₁ name plabels help now v)

/-- The event-handling loop (`Exporter.Listener` handles events in order),
with each event paired with its mapper result and arrival time. -/
def processEvents (d : MapperDefaults) :
    List (Option MetricMapping × Labels × Bool × Event × ℚ) → ExpState → Option ExpState
  | [], s => some s
  | (m, ll, p, ev, now) :: rest, s =>
    match handleEvent d m ll p ev now s with
    | none => none
    | some s' => processEvents d rest s'

/-- `Container.Delete` for counters: if the container knows the name, delete
the child keyed by the label map. -/
def counterDelete (reg : RegState) (name : GoStr) (labels : Labels) : RegState :=
  if (findVal reg.counters name).isSome then
    { reg with counterVals := delVal reg.counterVals (name, canonLabels labels) }
  else reg

def gaugeDelete (reg : RegState) (name : GoStr) (labels : Labels) : RegState :=
  if (findVal reg.gauges name).isSome then
    { reg with gaugeVals := delVal reg.gaugeVals (name, canonLabels labels) }
  else reg

def summaryDelete (reg : RegState) (name : GoStr) (labels : Labels) : RegState :=
  if (findVal reg.summaries name).isSome then
    { reg with summaryObs := delVal reg.summaryObs (name, canonLabels labels) }
  else reg

def histogramDelete (reg : RegState) (name : GoStr) (labels : Labels) : RegState :=
  if (findVal reg.histograms name).isSome then
    { reg with histogramObs := delVal reg.histogramObs (name, canonLabels labels) }
  else reg

/-- The sweeper's per-record action: delete the (name, labels) child from
all four family registries. -/
def familiesDelete (reg : RegState) (name : GoStr) (labels : Labels) : RegState :=
  histogramDelete (summaryDelete (gaugeDelete (counterDelete reg name labels) name labels) name labels) name labels

/-- The sweep loop over the `labelValues` table: a record with `ttl = 0` is
kept; a record with `lastRegisteredAt + ttl < now` is deleted together with
its children in all four families; every other record is kept. -/
def sweepAux (now : ℚ) :
    List (SeriesKey × LVRecord) → RegState → List (SeriesKey × LVRecord) × RegState
  | [], reg => ([], reg)
  | (key, lv) :: rest, reg =>
    if lv.ttl = 0 then
      let r := sweepAux now rest reg
      ((key, lv) :: r.1, r.2)
    else if lv.lastRegisteredAt + lv.ttl < now then
      sweepAux now rest (familiesDelete reg key.1 lv.labels)
    else
      let r := sweepAux now rest reg
      ((key, lv) :: r.1, r.2)

/-- `Exporter.removeStaleMetrics`. -/
def removeStaleMetrics (now : ℚ) (s : ExpState) : ExpState :=
  let r := sweepAux now s.labelValues s.reg
  { s with labelValues := r.1, reg := r.2 }

/-! ## The two mapper-cache variants -/

/-- A mapper cache entry (`MetricMapperCacheResult`): the mapping (nil for a
miss), the matched flag and the extra labels. -/
structure MMCacheResult where
  mapping : Option MetricMapping
  matched : Bool
  labels : Labels
deriving DecidableEq

/-- The LRU mapper cache (`hashicorp/golang-lru` behind `MetricMapperCache`):
a bounded list with most-recently-used entries in front. -/
structure LruCache where
  size : Nat
  entries : List (GoStr × MMCacheResult)
deriving DecidableEq

/-- `lru.Cache.Add`: move-to-front insert, evicting beyond the bound. -/
def lruAdd (c : LruCache) (k : GoStr) (v : MMCacheResult) : LruCache :=
  { c with entries := ((k, v) :: delVal c.entries k).take c.size }

/-- The LRU `MetricMapperCache.Get`: a present key is a hit returning the
stored result (and refreshing its recency). -/
def lruGet (c : LruCache) (k : GoStr) : Option MMCacheResult × LruCache :=
  match findVal c.entries k with
  | some v => (some v, { c with entries := ((k, v) :: delVal c.entries k).take c.size })
  | none => (none, c)

/-- The LRU `MetricMapperCache.AddMatch`. -/
def lruAddMatch (c : LruCache) (k : GoStr) (m : MetricMapping) (l : Labels) : LruCache :=
  lruAdd c k ⟨some m, true, l⟩

/-- The LRU `MetricMapperCache.AddMiss`. -/
def lruAddMiss (c : LruCache) (k : GoStr) : LruCache :=
  lruAdd c k ⟨none, false, []⟩

/-- The fastcache-backed mapper cache of the XDR variant: key to the
marshalled bytes.  The byte encoding is abstract (`xdrMarshal` is injective
enough for the model); what matters to the claims is `xdrGet`'s decoding
step. -/
structure XdrCache where
  entries : List (GoStr × List Nat)
deriving DecidableEq

/-- Stand-in for `xdr.Marshal` of a `MetricMapperCacheResult` (the marshal of
a concrete struct value succeeds; the exact bytes never matter because the
decode side fails before reading them). -/
def xdrMarshal (v : MMCacheResult) : List Nat :=
  [if v.matched then 1 else 0]

/-- `xdr.Unmarshal(bytes.NewReader(encodedData), result)` where `result` is
the declared-but-never-allocated `var result *MetricMapperCacheResult`:
go-xdr rejects a nil destination pointer before decoding any input, so the
call returns an error for every byte string. -/
def xdrUnmarshalIntoNilPtr (_ : List Nat) : Option MMCacheResult := none

/-- The XDR `MetricMapperCache.Get`: on a cache hit the stored bytes are
unmarshalled into a nil pointer, which always errors, so the function logs,
counts a miss and returns `(nil, false)`. -/
def xdrGet (c : XdrCache) (k : GoStr) : Option MMCacheResult × Bool :=
  match findVal c.entries k with
  | some bytes =>
    match xdrUnmarshalIntoNilPtr bytes with
    | none => (none, false)
    | some v => (some v, true)
  | none => (none, false)

/-- The XDR `MetricMapperCache.AddMatch`. -/
def xdrAddMatch (c : XdrCache) (k : GoStr) (m : MetricMapping) (l : Labels) : XdrCache :=
  { c with entries := setVal c.entries k (xdrMarshal ⟨some m, true, l⟩) }

/-- The XDR `MetricMapperCache.AddMiss`. -/
def xdrAddMiss (c : XdrCache) (k : GoStr) : XdrCache :=
  { c with entries := setVal c.entries k (xdrMarshal ⟨none, false, []⟩) }

/-- Well-formedness of a family: every child series belongs to a name the
container knows.  The dispatcher only creates children through `get`, which
creates the vector first, so every reachable registry satisfies this. -/
abbrev famWF {α : Type} (vals : List (SeriesKey × α)) (elems : List (GoStr × Vec)) : Prop :=
  ∀ kv ∈ vals, (findVal elems kv.1.1).isSome = true
/-- Well-formedness of the whole registry: all four families. -/
abbrev RegWF (reg : RegState) : Prop :=
  famWF reg.counterVals reg.counters ∧ famWF reg.gaugeVals reg.gauges ∧
  famWF reg.summaryObs reg.summaries ∧ famWF reg.histogramObs reg.histograms
def c6defaults : MapperDefaults := ⟨0, .unset, [], []⟩
def c6reg : RegState :=
  (summaryGet RegState.empty "t".toList [] (effHelp (effectiveMapping c6defaults none))
    (effectiveMapping c6defaults none) c6defaults).2
def c6state : ExpState :=
  (handleEvent c6defaults none [] false (.timer "t".toList 200 []) 0 ExpState.empty).getD
    ExpState.empty
def c3defaults : MapperDefaults := ⟨0, TimerType.unset, [], []⟩
def c3trace : List (Option MetricMapping × Labels × Bool × Event × ℚ) :=
  [(none, [], false, .gauge "foo".toList 1 false [], 0),
   (none, [], false, .counter "foo".toList 1 [], 0),
   (none, [], false, .counter "foo".toList 1 [], 0)]
def c3registerCount : Nat :=
  match processEvents c3defaults c3trace ExpState.empty with
  | some s => s.reg.registerCalls.count "foo".toList
  | none => 0
def c3s : ExpState :=
  (handleEvent c3defaults none [] false (.gauge "foo".toList 1 false []) 0
    ExpState.empty).getD ExpState.empty
def c3reg : RegState :=
  (counterGet ({ c3s with eventsUnmapped := c3s.eventsUnmapped + 1 } : ExpState).reg
    "foo".toList [] (effHelp (effectiveMapping c3defaults none))).2
def c4rec : LVRecord := ⟨0, [], 1⟩
def c4state : ExpState :=
  { ExpState.empty with labelValues := [(("x".toList, []), c4rec)] }
def c8mapping : MetricMapping := ⟨"dst".toList, .map, [], 0, .unset, [], []⟩
def c8labels : Labels := [("l".toList, "v".toList)]

/-! ## Helper lemmas -/

theorem splitFirst_not_mem {c : Char} {l : GoStr} (h : c ∉ l) :
    splitFirst c l = (l, none) := by
  induction l with
  | nil => rfl
  | cons x xs ih =>
    have hx : x ≠ c := fun e => h (e ▸ List.mem_cons_self x xs)
    have hxs : c ∉ xs := fun e => h (List.mem_cons_of_mem x e)
    simp [splitFirst, hx, ih hxs]

theorem splitFirst_cons_self (c : Char) (rest : GoStr) :
    splitFirst c (c :: rest) = ([], some rest) := by
  simp [splitFirst]

theorem goSplit_not_mem {c : Char} {l : GoStr} (h : c ∉ l) :
    goSplit c l = [l] := by
  induction l with
  | nil => rfl
  | cons x xs ih =>
    have hx : x ≠ c := fun e => h (e ▸ List.mem_cons_self x xs)
    have hxs : c ∉ xs := fun e => h (List.mem_cons_of_mem x e)
    simp [goSplit, hx, ih hxs]

theorem goSplit_ne_nil (c : Char) (l : GoStr) : goSplit c l ≠ [] := by
  cases l with
  | nil => simp [goSplit]
  | cons x xs =>
    simp only [goSplit]
    by_cases hx : x = c
    · simp [hx]
    · simp only [hx, if_false]
      cases goSplit c xs with
      | nil => simp
      | cons h t => simp

theorem goSplit_append {c : Char} {l₁ : GoStr} (l₂ : GoStr) (h : c ∉ l₁) :
    goSplit c (l₁ ++ c :: l₂) = l₁ :: goSplit c l₂ := by
  induction l₁ with
  | nil => simp [goSplit]
  | cons x xs ih =>
    have hx : x ≠ c := fun e => h (e ▸ List.mem_cons_self x xs)
    have hxs : c ∉ xs := fun e => h (List.mem_cons_of_mem x e)
    simp only [List.cons_append, goSplit, hx, if_false]
    rw [List.append_eq, ih hxs]

/-! ## C1 -/

/-- C1: the claim states that `lineToEvents` never panics on any input
line.  It is refuted by the code: on the line `a:1|c|#:v` the DogStatsD tag
`:v` has an empty key and a nonempty value, so `parseDogStatsDTagsToLabels`
passes the empty string to `escapeMetricName`, whose unconditional
`metricName[0]` index panics (modelled as `none`).  The spec's error table
says a malformed tag should only bump `tag_errors` and be skipped, so this
is a slip in the code, not in the claim. -/
theorem C1_lineToEvents_panics_on_empty_tag_key :
    lineToEvents "a:1|c|#:v".toList = none := by
  with_unfolding_all decide

/-! ## C7 -/

/-- C7 counterexample: the claim states the empty line increments the
`malformed_line` counter; in the code the empty line returns before any
counter is touched, so all counters (in particular `malformedLine`) are
still zero. -/
theorem C7_cex_empty_line_counts_nothing :
    lineToEvents [] = some ([], Stats.zero) ∧ Stats.zero.malformedLine = 0 := by
  exact ⟨by with_unfolding_all decide, rfl⟩

/-- C7 (amended): the empty line is rejected silently — no events and no
counter increment — while a nonempty line without `:` and a line with an
empty name are rejected with exactly one `malformed_line` increment.
(Invalid UTF-8 is not representable in the model: a Lean string is always
valid UTF-8, so that branch of the same check is constantly true.) -/
theorem C7_line_rejection :
    lineToEvents [] = some ([], Stats.zero) ∧
    (∀ line : GoStr, line ≠ [] → ':' ∉ line →
      lineToEvents line = some ([], Stats.zero.incMalformedLine)) ∧
    (∀ rest : GoStr, lineToEvents (':' :: rest) = some ([], Stats.zero.incMalformedLine)) := by
  refine ⟨by with_unfolding_all decide, ?_, ?_⟩
  · intro line hne hmem
    simp [lineToEvents, hne, splitFirst_not_mem hmem]
  · intro rest
    simp [lineToEvents, splitFirst_cons_self]

/-- C7 witness: the amended theorem applied to the concrete lines `abc`
(no colon) and `:x` (empty name). -/
theorem C7_line_rejection_witness :
    lineToEvents "abc".toList = some ([], Stats.zero.incMalformedLine) ∧
    lineToEvents (':' :: "x".toList) = some ([], Stats.zero.incMalformedLine) :=
  ⟨C7_line_rejection.2.1 "abc".toList (by decide) (by decide),
   C7_line_rejection.2.2 "x".toList⟩

/-! ## C2 and C9: sampling -/

theorem goTrunc_of_nonneg {q : ℚ} (h : 0 ≤ q) : goTrunc q = ⌊q⌋ := if_pos h

/-- Evaluation of `processSample` on a three-component sample
`value|type|modifier` with the components given separately. -/
theorem processSample_three_comps (metric vs statType modc : GoStr) (x : ℚ) (st : Stats)
    (hvs : '|' ∉ vs) (hst : '|' ∉ statType) (hmod : '|' ∉ modc) (hmodne : modc ≠ [])
    (hx : parseGoFloat vs = some x) :
    processSample metric (vs ++ '|' :: (statType ++ '|' :: modc)) st =
      (match modifierLoop statType [modc] x 1 [] st.incSamplesReceived with
       | none => none
       | some (v', m, lbls, st') =>
         match buildEvent statType metric v' (isRelativeValue vs) lbls with
         | some e => some (List.replicate m.toNat e, st')
         | none => some ([], st'.addIllegalEvent m.toNat)) := by
  have h1 : goSplit '|' (vs ++ '|' :: (statType ++ '|' :: modc)) = [vs, statType, modc] := by
    rw [goSplit_append _ hvs, goSplit_append _ hst, goSplit_not_mem hmod]
  have hmod' : modc.isEmpty = false := by
    cases modc with
    | nil => exact absurd rfl hmodne
    | cons a b => rfl
  simp only [processSample, h1]
  simp [hmod', hx]

/-- The `@` modifier on a counter sample: the value is divided by the rate. -/
theorem modifierLoop_counter_rate (rs : GoStr) (x r : ℚ) (st : Stats)
    (hr : parseGoFloat rs = some r) (hrne : r ≠ 0) :
    modifierLoop ['c'] ['@' :: rs] x 1 [] st = some (x / r, 1, [], st) := by
  simp [modifierLoop, hr, hrne]

/-- The `@` modifier on a timer sample: the replication count becomes
`int(1/rate)` and the value is unchanged. -/
theorem modifierLoop_timer_rate (rs : GoStr) (x r : ℚ) (st : Stats)
    (hr : parseGoFloat rs = some r) (hrne : r ≠ 0) :
    modifierLoop ['m', 's'] ['@' :: rs] x 1 [] st =
      some (x, goTrunc (1 / r), [], st) := by
  simp [modifierLoop, hr, hrne]

/-- The `@` modifier on any other type bumps `illegalSampleFactor` and is
ignored entirely. -/
theorem modifierLoop_other_rate (statType rs : GoStr) (x : ℚ) (m : Int)
    (lbls : Labels) (st : Stats) (h1 : statType ≠ ['c']) (h2 : statType ≠ ['m', 's']) :
    modifierLoop statType ['@' :: rs] x m lbls st =
      some (x, m, lbls, st.incIllegalSampleFactor) := by
  simp [modifierLoop, h1, h2]

/-- C2: for a counter sample `x|c|@r` with rate r ∈ (0,1] the parser emits a
single CounterEvent of value `x/r`; for a timer sample `x|ms|@r` it emits
`⌊1/r⌋` TimerEvents each carrying the original value `x`; a rate of `0` is
treated as `1` (one event, value unchanged); and the `@` modifier on any
type other than `c` and `ms` bumps `illegalSampleFactor` and leaves value,
replication count and labels unchanged. -/
theorem C2_sampling (metric vs rs : GoStr) (x r : ℚ)
    (hvs : '|' ∉ vs) (hrs : '|' ∉ rs)
    (hx : parseGoFloat vs = some x) (hr : parseGoFloat rs = some r) :
    (0 < r → r ≤ 1 →
      (∀ st, processSample metric (vs ++ '|' :: 'c' :: '|' :: '@' :: rs) st =
        some ([Event.counter metric (x / r) []], st.incSamplesReceived)) ∧
      (∀ st, processSample metric (vs ++ '|' :: 'm' :: 's' :: '|' :: '@' :: rs) st =
        some (List.replicate (⌊1 / r⌋).toNat (Event.timer metric x []),
          st.incSamplesReceived))) ∧
    (r = 0 →
      (∀ st, processSample metric (vs ++ '|' :: 'c' :: '|' :: '@' :: rs) st =
        some ([Event.counter metric x []], st.incSamplesReceived)) ∧
      (∀ st, processSample metric (vs ++ '|' :: 'm' :: 's' :: '|' :: '@' :: rs) st =
        some ([Event.timer metric x []], st.incSamplesReceived))) ∧
    (∀ statType : GoStr, statType ≠ ['c'] → statType ≠ ['m', 's'] →
      ∀ (v : ℚ) (m : Int) (lbls : Labels) (st : Stats),
        modifierLoop statType ['@' :: rs] v m lbls st =
          some (v, m, lbls, st.incIllegalSampleFactor)) := by
  have hmod : ('|' : Char) ∉ '@' :: rs := by
    intro h
    rcases List.mem_cons.mp h with h | h
    · exact absurd h (by decide)
    · exact hrs h
  have hmodne : ('@' :: rs : GoStr) ≠ [] := by simp
  refine ⟨?_, ?_, ?_⟩
  · intro hr0 _
    have hrne : r ≠ 0 := ne_of_gt hr0
    constructor
    · intro st
      have := processSample_three_comps metric vs ['c'] ('@' :: rs) x st hvs
        (by decide) hmod hmodne hx
      rw [show (vs ++ '|' :: 'c' :: '|' :: '@' :: rs : GoStr) =
        vs ++ '|' :: (['c'] ++ '|' :: '@' :: rs) from rfl, this,
        modifierLoop_counter_rate _ _ _ _ hr hrne]
      simp [buildEvent]
    · intro st
      have := processSample_three_comps metric vs ['m', 's'] ('@' :: rs) x st hvs
        (by decide) hmod hmodne hx
      rw [show (vs ++ '|' :: 'm' :: 's' :: '|' :: '@' :: rs : GoStr) =
        vs ++ '|' :: (['m', 's'] ++ '|' :: '@' :: rs) from rfl, this,
        modifierLoop_timer_rate _ _ _ _ hr hrne]
      have h1r : (0 : ℚ) ≤ 1 / r := le_of_lt (by positivity)
      rw [goTrunc_of_nonneg h1r]
      simp [buildEvent]
  · intro hr0
    subst hr0
    constructor
    · intro st
      have h0 := processSample_three_comps metric vs ['c'] ('@' :: rs) x st hvs
        (by decide) hmod hmodne hx
      rw [show (vs ++ '|' :: 'c' :: '|' :: '@' :: rs : GoStr) =
        vs ++ '|' :: (['c'] ++ '|' :: '@' :: rs) from rfl, h0]
      have : modifierLoop ['c'] ['@' :: rs] x 1 [] st.incSamplesReceived =
          some (x / 1, 1, [], st.incSamplesReceived) := by
        simp [modifierLoop, hr]
      rw [this]
      simp [buildEvent]
    · intro st
      have h0 := processSample_three_comps metric vs ['m', 's'] ('@' :: rs) x st hvs
        (by decide) hmod hmodne hx
      rw [show (vs ++ '|' :: 'm' :: 's' :: '|' :: '@' :: rs : GoStr) =
        vs ++ '|' :: (['m', 's'] ++ '|' :: '@' :: rs) from rfl, h0]
      have hml : modifierLoop ['m', 's'] ['@' :: rs] x 1 [] st.incSamplesReceived =
          some (x, goTrunc (1 / 1), [], st.incSamplesReceived) := by
        simp [modifierLoop, hr]
      rw [hml]
      have : goTrunc ((1 : ℚ) / 1) = 1 := by
        rw [goTrunc_of_nonneg (by norm_num)]
        norm_num
      rw [this]
      simp [buildEvent]
  · intro statType h1 h2 v m lbls st
    exact modifierLoop_other_rate statType rs v m lbls st h1 h2

/-- C2 witness: the theorem applied at `10|c|@0.5` (counter value 20),
`5|ms|@0.25` (four timer events of value 5), rate `0` treated as `1`, and a
gauge `@` modifier being counted and ignored. -/
theorem C2_sampling_witness :
    processSample "m".toList "10|c|@0.5".toList Stats.zero =
      some ([Event.counter "m".toList 20 []], Stats.zero.incSamplesReceived) ∧
    processSample "m".toList "5|ms|@0.25".toList Stats.zero =
      some (List.replicate 4 (Event.timer "m".toList 5 []), Stats.zero.incSamplesReceived) ∧
    processSample "m".toList "7|c|@0".toList Stats.zero =
      some ([Event.counter "m".toList 7 []], Stats.zero.incSamplesReceived) ∧
    modifierLoop "g".toList ['@' :: "0.5".toList] 3 1 [] Stats.zero =
      some (3, 1, [], Stats.zero.incIllegalSampleFactor) := by
  have h1 := C2_sampling "m".toList "10".toList "0.5".toList 10 (1 / 2)
    (by decide) (by decide) (by with_unfolding_all decide) (by with_unfolding_all decide)
  have h2 := C2_sampling "m".toList "5".toList "0.25".toList 5 (1 / 4)
    (by decide) (by decide) (by with_unfolding_all decide) (by with_unfolding_all decide)
  have h3 := C2_sampling "m".toList "7".toList "0".toList 7 0
    (by decide) (by decide) (by with_unfolding_all decide) (by with_unfolding_all decide)
  refine ⟨?_, ?_, ?_, ?_⟩
  · have := (h1.1 (by norm_num) (by norm_num)).1 Stats.zero
    rw [show ("10|c|@0.5".toList : GoStr) =
      "10".toList ++ '|' :: 'c' :: '|' :: '@' :: "0.5".toList from by decide, this]
    norm_num
  · have := (h2.1 (by norm_num) (by norm_num)).2 Stats.zero
    rw [show ("5|ms|@0.25".toList : GoStr) =
      "5".toList ++ '|' :: 'm' :: 's' :: '|' :: '@' :: "0.25".toList from by decide, this,
      show (⌊(1 : ℚ) / (1 / 4)⌋ : Int) = 4 from by norm_num]
    all_goals with_unfolding_all decide
  · have := (h3.2.1 rfl).1 Stats.zero
    rw [show ("7|c|@0".toList : GoStr) =
      "7".toList ++ '|' :: 'c' :: '|' :: '@' :: "0".toList from by decide, this]
  · exact h3.2.2 "g".toList (by decide) (by decide) 3 1 [] Stats.zero

/-- C9: a timer sample `x|ms|@r` whose rate lies outside `(0,1]` — r > 1 or
r < 0 — produces no events at all and bumps no error counter (only
`samplesReceived`): the Go replication loop runs `int(1/r) ≤ 0` times, so
the observation is silently discarded. -/
theorem C9_out_of_range_rate_discards (metric vs rs : GoStr) (x r : ℚ)
    (hvs : '|' ∉ vs) (hrs : '|' ∉ rs)
    (hx : parseGoFloat vs = some x) (hr : parseGoFloat rs = some r)
    (hrange : 1 < r ∨ r < 0) (st : Stats) :
    processSample metric (vs ++ '|' :: 'm' :: 's' :: '|' :: '@' :: rs) st =
      some ([], st.incSamplesReceived) := by
  have hmod : ('|' : Char) ∉ '@' :: rs := by
    intro h
    rcases List.mem_cons.mp h with h | h
    · exact absurd h (by decide)
    · exact hrs h
  have hrne : r ≠ 0 := by
    rcases hrange with h | h
    · exact ne_of_gt (lt_trans one_pos h)
    · exact ne_of_lt h
  have := processSample_three_comps metric vs ['m', 's'] ('@' :: rs) x st hvs
    (by decide) hmod (by simp) hx
  rw [show (vs ++ '|' :: 'm' :: 's' :: '|' :: '@' :: rs : GoStr) =
    vs ++ '|' :: (['m', 's'] ++ '|' :: '@' :: rs) from rfl, this,
    modifierLoop_timer_rate _ _ _ _ hr hrne]
  have hz : (goTrunc (1 / r)).toNat = 0 := by
    rcases hrange with h | h
    · have h0 : (0 : ℚ) < 1 / r := by positivity
      rw [goTrunc_of_nonneg (le_of_lt h0)]
      have hfl : ⌊(1 : ℚ) / r⌋ = 0 := by
        rw [Int.floor_eq_zero_iff]
        refine Set.mem_Ico.mpr ⟨le_of_lt h0, ?_⟩
        rw [div_lt_one (lt_trans one_pos h)]
        exact h
      rw [hfl]
      rfl
    · have h0 : (1 : ℚ) / r < 0 := by
        apply div_neg_of_pos_of_neg one_pos h
      have hnot : ¬ (0 : ℚ) ≤ 1 / r := not_le.mpr h0
      rw [goTrunc, if_neg hnot, Int.toNat_eq_zero]
      have hfl : 0 ≤ ⌊-((1 : ℚ) / r)⌋ := Int.floor_nonneg.mpr (by linarith)
      exact neg_nonpos.mpr hfl
  simp [buildEvent, hz, -one_div]

/-- C9 witness: the theorem applied at the timer samples `5|ms|@2` and
`5|ms|@-0.5`, both of which are silently discarded. -/
theorem C9_out_of_range_rate_witness :
    processSample "m".toList "5|ms|@2".toList Stats.zero =
      some ([], Stats.zero.incSamplesReceived) ∧
    processSample "m".toList "5|ms|@-0.5".toList Stats.zero =
      some ([], Stats.zero.incSamplesReceived) := by
  constructor
  · have := C9_out_of_range_rate_discards "m".toList "5".toList "2".toList 5 2
      (by decide) (by decide) (by with_unfolding_all decide)
      (by with_unfolding_all decide) (by norm_num) Stats.zero
    rw [show ("5|ms|@2".toList : GoStr) =
      "5".toList ++ '|' :: 'm' :: 's' :: '|' :: '@' :: "2".toList from by decide]
    exact this
  · have := C9_out_of_range_rate_discards "m".toList "5".toList "-0.5".toList 5 (-(1 / 2))
      (by decide) (by decide) (by with_unfolding_all decide)
      (by with_unfolding_all decide) (by norm_num) Stats.zero
    rw [show ("5|ms|@-0.5".toList : GoStr) =
      "5".toList ++ '|' :: 'm' :: 's' :: '|' :: '@' :: "-0.5".toList from by decide]
    exact this

/-! ## Association-list lemmas -/

theorem findVal_setVal_self {κ α : Type} [DecidableEq κ] (l : List (κ × α)) (k : κ) (v : α) :
    findVal (setVal l k v) k = some v := by
  induction l with
  | nil => simp [setVal, findVal]
  | cons p rest ih =>
    by_cases h : p.1 = k
    · simp [setVal, h, findVal]
    · simp [setVal, h, findVal, ih]

theorem findVal_setVal_other {κ α : Type} [DecidableEq κ] (l : List (κ × α)) (k k' : κ) (v : α)
    (h : k ≠ k') : findVal (setVal l k v) k' = findVal l k' := by
  induction l with
  | nil => simp [setVal, findVal, h]
  | cons p rest ih =>
    by_cases hp : p.1 = k
    · simp [setVal, hp, findVal, h]
    · simp [setVal, hp, findVal, ih]

theorem findVal_delVal {κ α : Type} [DecidableEq κ] (l : List (κ × α)) (k k' : κ) :
    findVal (delVal l k) k' = if k' = k then none else findVal l k' := by
  induction l with
  | nil => simp [delVal, findVal]
  | cons p rest ih =>
    simp only [delVal]
    by_cases hp : p.1 = k
    · rw [if_pos hp, ih]
      by_cases hk : k' = k
      · simp [hk]
      · have hpk : ¬ p.1 = k' := fun e => hk (e.symm.trans hp)
        simp [hk, findVal, hpk]
    · rw [if_neg hp]
      by_cases hpk : p.1 = k'
      · have hk : ¬ k' = k := fun e => hp (e ▸ hpk)
        simp [findVal, hpk, hk]
      · simp [findVal, hpk, ih]

theorem findVal_some_mem {κ α : Type} [DecidableEq κ] {l : List (κ × α)} {k : κ} {v : α}
    (h : findVal l k = some v) : (k, v) ∈ l := by
  induction l with
  | nil => simp [findVal] at h
  | cons p rest ih =>
    by_cases hp : p.1 = k
    · rw [findVal, if_pos hp] at h
      injection h with h
      subst h
      subst hp
      exact List.mem_cons_self p rest
    · rw [findVal, if_neg hp] at h
      exact List.mem_cons_of_mem _ (ih h)

/-! ## C10: mapper labels overwrite wire labels -/

theorem mergeFold_not_mem (ml : Labels) (k : GoStr)
    (h : ∀ kv ∈ ml, kv.1 ≠ k) (acc : Labels) :
    findVal (ml.foldl (fun acc kv => setVal acc kv.1 kv.2) acc) k = findVal acc k := by
  induction ml generalizing acc with
  | nil => rfl
  | cons p rest ih =>
    have hp : p.1 ≠ k := h p (List.mem_cons_self p rest)
    have hrest : ∀ kv ∈ rest, kv.1 ≠ k := fun kv hm => h kv (List.mem_cons_of_mem p hm)
    simp only [List.foldl_cons]
    rw [ih hrest, findVal_setVal_other _ _ _ _ hp]

/-- C10: `handleEvent` writes each mapper label into the event's own label
map (the map already holding the inline DogStatsD tags from the wire), so a
key appearing in both gets the mapper's value, a key only on the wire keeps
its wire value, and the dispatcher's present-mapping path resolves to
exactly this merged map. -/
theorem C10_mapper_labels_overwrite :
    (∀ (el ml : Labels) (k v : GoStr), (ml.map Prod.fst).Nodup → (k, v) ∈ ml →
      findVal (mergeMapperLabels el ml) k = some v) ∧
    (∀ (el ml : Labels) (k : GoStr), (∀ kv ∈ ml, kv.1 ≠ k) →
      findVal (mergeMapperLabels el ml) k = findVal el k) ∧
    (∀ (ev : Event) (mapping : MetricMapping) (ml : Labels) (s : ExpState) (n : GoStr),
      escapeMetricName mapping.name = some n →
      resolveNameLabels ev mapping ml true s =
        some (n, mergeMapperLabels ev.labels ml, s)) := by
  refine ⟨?_, ?_, ?_⟩
  · intro el ml k v hnd hmem
    induction ml generalizing el with
    | nil => simp at hmem
    | cons p rest ih =>
      rcases List.mem_cons.mp hmem with he | hm
      · subst he
        have hrest : ∀ kv ∈ rest, kv.1 ≠ k := by
          intro kv hkv e
          have : k ∈ rest.map Prod.fst := e ▸ List.mem_map_of_mem Prod.fst hkv
          exact (List.nodup_cons.mp hnd).1 this
        simp only [mergeMapperLabels, List.foldl_cons]
        rw [mergeFold_not_mem rest k hrest]
        exact findVal_setVal_self el k v
      · have hnd' : (rest.map Prod.fst).Nodup := (List.nodup_cons.mp hnd).2
        simp only [mergeMapperLabels, List.foldl_cons] at ih ⊢
        exact ih (setVal el p.1 p.2) hnd' hm
  · intro el ml k h
    exact mergeFold_not_mem ml k h el
  · intro ev mapping ml s n hesc
    simp [resolveNameLabels, hesc]

/-- C10 witness: the theorem applied to a wire label map `{env: wire,
host: h1}` and mapper labels `{env: mapped}` — the mapper's `env` wins, the
wire's `host` survives — and to the dispatcher's resolution step. -/
theorem C10_mapper_labels_overwrite_witness :
    findVal (mergeMapperLabels
      [("env".toList, "wire".toList), ("host".toList, "h1".toList)]
      [("env".toList, "mapped".toList)]) "env".toList = some "mapped".toList ∧
    findVal (mergeMapperLabels
      [("env".toList, "wire".toList), ("host".toList, "h1".toList)]
      [("env".toList, "mapped".toList)]) "host".toList = some "h1".toList ∧
    resolveNameLabels (.counter "c".toList 1 [("env".toList, "wire".toList)])
      { emptyMapping with name := "n".toList } [("env".toList, "mapped".toList)]
      true ExpState.empty =
      some ("n".toList,
        mergeMapperLabels [("env".toList, "wire".toList)] [("env".toList, "mapped".toList)],
        ExpState.empty) := by
  refine ⟨?_, ?_, ?_⟩
  · exact C10_mapper_labels_overwrite.1 _ _ _ _ (by decide) (by decide)
  · have := C10_mapper_labels_overwrite.2.1
      [("env".toList, "wire".toList), ("host".toList, "h1".toList)]
      [("env".toList, "mapped".toList)] "host".toList (by decide)
    rw [this]
    decide
  · exact C10_mapper_labels_overwrite.2.2
      (.counter "c".toList 1 [("env".toList, "wire".toList)])
      { emptyMapping with name := "n".toList } [("env".toList, "mapped".toList)]
      ExpState.empty "n".toList (by decide)

/-! ## C5: negative counters are rejected -/

/-- C5: a CounterEvent with a negative value (reaching the dispatcher under
a non-drop mapping) is rejected: the resulting state differs from the input
only in the `illegal_negative_counter` event-stat (plus the
`events_unmapped` bump taken before the type switch when the mapper did not
match) — in particular the registry, the series values and the
`labelValues` records are untouched. -/
theorem C5_negative_counter_rejected (d : MapperDefaults) (m : Option MetricMapping)
    (ml : Labels) (p : Bool) (nm : GoStr) (v : ℚ) (lb : Labels) (now : ℚ)
    (s s' : ExpState) (hv : v < 0)
    (hact : (effectiveMapping d m).action ≠ ActionType.drop)
    (h : handleEvent d m ml p (.counter nm v lb) now s = some s') :
    s' = { s with
      eventStats := s.eventStats.incIllegalNegativeCounter
      eventsUnmapped := s.eventsUnmapped + (if p then 0 else 1) } := by
  unfold handleEvent at h
  rw [if_neg hact] at h
  cases p with
  | true =>
    cases he : escapeMetricName (effectiveMapping d m).name with
    | none => simp [resolveNameLabels, he] at h
    | some n =>
      have hres : resolveNameLabels (.counter nm v lb) (effectiveMapping d m) ml true s =
          some (n, mergeMapperLabels lb ml, s) := by
        simp [resolveNameLabels, he, Event.labels]
      rw [hres] at h
      simp only [handleCounter, if_pos hv, Option.some.injEq] at h
      subst h
      simp
  | false =>
    cases he : escapeMetricName nm with
    | none => simp [resolveNameLabels, he, Event.metricName] at h
    | some n =>
      have hres : resolveNameLabels (.counter nm v lb) (effectiveMapping d m) ml false s =
          some (n, lb, { s with eventsUnmapped := s.eventsUnmapped + 1 }) := by
        simp [resolveNameLabels, he, Event.labels, Event.metricName]
      rw [hres] at h
      simp only [handleCounter, if_pos hv, Option.some.injEq] at h
      subst h
      simp

/-- C5 witness: the theorem applied to the unmapped counter event `neg:-5|c`
arriving at the empty exporter. -/
theorem C5_negative_counter_witness :
    handleEvent ⟨0, .unset, [], []⟩ none [] false
      (.counter "neg".toList (-5) []) 0 ExpState.empty =
      some { ExpState.empty with
        eventStats := ExpState.empty.eventStats.incIllegalNegativeCounter
        eventsUnmapped := ExpState.empty.eventsUnmapped + (if false then 0 else 1) } := by
  have hs' : handleEvent ⟨0, .unset, [], []⟩ none [] false
      (.counter "neg".toList (-5) []) 0 ExpState.empty =
      some ⟨RegState.empty, [], ⟨0, 0, 0, 1⟩, ConflictStats.zero, 1⟩ := by
    with_unfolding_all decide
  rw [hs']
  exact congrArg some (C5_negative_counter_rejected ⟨0, .unset, [], []⟩ none [] false
    "neg".toList (-5) [] 0 ExpState.empty _ (by norm_num) (by decide) hs')

/-! ## C6: timers -/

theorem saveLabelValues_reg (s : ExpState) (n : GoStr) (l : Labels) (t now : ℚ) :
    (saveLabelValues s n l t now).reg = s.reg := by
  unfold saveLabelValues
  cases h : findVal s.labelValues (n, canonLabels l) <;> simp [h]

theorem saveLabelValues_eventStats (s : ExpState) (n : GoStr) (l : Labels) (t now : ℚ) :
    (saveLabelValues s n l t now).eventStats = s.eventStats := by
  unfold saveLabelValues
  cases h : findVal s.labelValues (n, canonLabels l) <;> simp [h]

theorem saveLabelValues_record (s : ExpState) (n : GoStr) (l : Labels) (t now : ℚ) :
    (findVal (saveLabelValues s n l t now).labelValues (n, canonLabels l)).map
      (fun lv => (lv.lastRegisteredAt, lv.ttl)) = some (now, t) := by
  unfold saveLabelValues
  cases h : findVal s.labelValues (n, canonLabels l) with
  | some lv => simp [findVal_setVal_self]
  | none => simp [findVal_setVal_self]

theorem resolveNameLabels_fields {ev : Event} {mp : MetricMapping} {ml : Labels}
    {p : Bool} {s : ExpState} {n : GoStr} {pl : Labels} {s₁ : ExpState}
    (h : resolveNameLabels ev mp ml p s = some (n, pl, s₁)) :
    s₁.reg = s.reg ∧ s₁.eventStats = s.eventStats := by
  cases p with
  | true =>
    cases he : escapeMetricName mp.name with
    | none => simp [resolveNameLabels, he] at h
    | some n' =>
      simp only [resolveNameLabels, he, if_true, Option.some.injEq, Prod.mk.injEq] at h
      obtain ⟨-, -, h3⟩ := h
      rw [← h3]
      exact ⟨rfl, rfl⟩
  | false =>
    cases he : escapeMetricName ev.metricName with
    | none => simp [resolveNameLabels, he] at h
    | some n' =>
      simp only [resolveNameLabels, he, Option.some.injEq, Prod.mk.injEq,
        Bool.false_eq_true, if_false] at h
      obtain ⟨-, -, h3⟩ := h
      rw [← h3]
      exact ⟨rfl, rfl⟩

theorem ensureChild_obsOf (vals : List (SeriesKey × List ℚ)) (k : SeriesKey) :
    obsOf (ensureChild vals k []) k = obsOf vals k := by
  unfold ensureChild obsOf
  cases h : findVal vals k with
  | some v => simp [h]
  | none => simp [h, findVal_setVal_self]

theorem obsOf_observe (vals : List (SeriesKey × List ℚ)) (k : SeriesKey) (x : ℚ) :
    obsOf (setVal vals k ((findVal vals k).getD [] ++ [x])) k = obsOf vals k ++ [x] := by
  unfold obsOf
  rw [findVal_setVal_self]
  rfl

theorem summaryGet_true_obs {reg : RegState} {n : GoStr} {l : Labels} {h : GoStr}
    {mp : MetricMapping} {d : MapperDefaults} {reg' : RegState}
    (hg : summaryGet reg n l h mp d = (true, reg')) :
    reg'.summaryObs = ensureChild reg.summaryObs (n, canonLabels l) [] := by
  simp only [summaryGet] at hg
  split at hg <;> split at hg <;>
    first
      | (injection hg with h1 h2
         exact absurd h1 (by decide))
      | (injection hg with h1 h2
         rw [← h2])

theorem histogramGet_true_obs {reg : RegState} {n : GoStr} {l : Labels} {h : GoStr}
    {mp : MetricMapping} {d : MapperDefaults} {reg' : RegState}
    (hg : histogramGet reg n l h mp d = (true, reg')) :
    reg'.histogramObs = ensureChild reg.histogramObs (n, canonLabels l) [] := by
  simp only [histogramGet] at hg
  split at hg <;> split at hg <;>
    first
      | (injection hg with h1 h2
         exact absurd h1 (by decide))
      | (injection hg with h1 h2
         rw [← h2])

theorem handleTimer_hist_eq {d : MapperDefaults} {mapping : MetricMapping}
    {s : ExpState} {name : GoStr} {plabels : Labels} {help : GoStr} {now v : ℚ}
    {reg' : RegState} (ht : effTimerType d mapping = TimerType.histogram)
    (hget : histogramGet s.reg name plabels help mapping d = (true, reg')) :
    handleTimer d mapping s name plabels help now v =
      (let s' := saveLabelValues { s with reg := histogramObserve reg' name plabels (v / 1000) }
        name plabels mapping.ttl now
      { s' with eventStats := s'.eventStats.incTimer }) := by
  unfold handleTimer
  rw [if_pos ht, hget]
  rfl

theorem handleTimer_summary_eq {d : MapperDefaults} {mapping : MetricMapping}
    {s : ExpState} {name : GoStr} {plabels : Labels} {help : GoStr} {now v : ℚ}
    {reg' : RegState} (ht : effTimerType d mapping ≠ TimerType.histogram)
    (hget : summaryGet s.reg name plabels help mapping d = (true, reg')) :
    handleTimer d mapping s name plabels help now v =
      (let s' := saveLabelValues { s with reg := summaryObserve reg' name plabels (v / 1000) }
        name plabels mapping.ttl now
      { s' with eventStats := s'.eventStats.incTimer }) := by
  unfold handleTimer
  rw [if_neg ht, hget]
  rfl

/-- C6: a TimerEvent (under a non-drop mapping) is routed on the effective
timer type — the mapping's, falling back to the mapper default, with summary
for everything that is not histogram, so in particular when both are unset —
and on a successful `get` the chosen series observes `value/1000` (ms → s),
`event_stats{timer}` is incremented by one, and the LabelSetRecord for the
series is saved with `lastRegisteredAt = now` and the mapping's TTL. -/
theorem C6_timer_routes_and_observes (d : MapperDefaults) (m : Option MetricMapping)
    (ml : Labels) (p : Bool) (nm : GoStr) (v : ℚ) (lb : Labels) (now : ℚ)
    (s : ExpState) (name : GoStr) (plabels : Labels) (s₁ : ExpState)
    (hres : resolveNameLabels (.timer nm v lb) (effectiveMapping d m) ml p s =
      some (name, plabels, s₁))
    (hact : (effectiveMapping d m).action ≠ ActionType.drop) :
    (effTimerType d (effectiveMapping d m) = TimerType.histogram →
      ∀ reg', histogramGet s₁.reg name plabels (effHelp (effectiveMapping d m))
          (effectiveMapping d m) d = (true, reg') →
      ∀ s', handleEvent d m ml p (.timer nm v lb) now s = some s' →
        obsOf s'.reg.histogramObs (name, canonLabels plabels) =
          obsOf s₁.reg.histogramObs (name, canonLabels plabels) ++ [v / 1000] ∧
        s'.eventStats.timer = s.eventStats.timer + 1 ∧
        (findVal s'.labelValues (name, canonLabels plabels)).map
          (fun lv => (lv.lastRegisteredAt, lv.ttl)) =
            some (now, (effectiveMapping d m).ttl)) ∧
    (effTimerType d (effectiveMapping d m) ≠ TimerType.histogram →
      ∀ reg', summaryGet s₁.reg name plabels (effHelp (effectiveMapping d m))
          (effectiveMapping d m) d = (true, reg') →
      ∀ s', handleEvent d m ml p (.timer nm v lb) now s = some s' →
        obsOf s'.reg.summaryObs (name, canonLabels plabels) =
          obsOf s₁.reg.summaryObs (name, canonLabels plabels) ++ [v / 1000] ∧
        s'.eventStats.timer = s.eventStats.timer + 1 ∧
        (findVal s'.labelValues (name, canonLabels plabels)).map
          (fun lv => (lv.lastRegisteredAt, lv.ttl)) =
            some (now, (effectiveMapping d m).ttl)) := by
  have hfields := resolveNameLabels_fields hres
  constructor
  · intro ht reg' hget s' hrun
    unfold handleEvent at hrun
    rw [if_neg hact, hres] at hrun
    simp only [Option.some.injEq] at hrun
    rw [← hrun, handleTimer_hist_eq ht hget]
    refine ⟨?_, ?_, ?_⟩
    · simp only [saveLabelValues_reg, histogramObserve]
      rw [obsOf_observe, histogramGet_true_obs hget, ensureChild_obsOf]
    · simp only [saveLabelValues_eventStats, EventStats.incTimer]
      rw [hfields.2]
    · exact saveLabelValues_record _ _ _ _ _
  · intro ht reg' hget s' hrun
    unfold handleEvent at hrun
    rw [if_neg hact, hres] at hrun
    simp only [Option.some.injEq] at hrun
    rw [← hrun, handleTimer_summary_eq ht hget]
    refine ⟨?_, ?_, ?_⟩
    · simp only [saveLabelValues_reg, summaryObserve]
      rw [obsOf_observe, summaryGet_true_obs hget, ensureChild_obsOf]
    · simp only [saveLabelValues_eventStats, EventStats.incTimer]
      rw [hfields.2]
    · exact saveLabelValues_record _ _ _ _ _




/-- C6 witness: the theorem applied to the unmapped timer event `t:200|ms`
with the mapper default timer type unset — it routes to the summary family
and observes `0.2` seconds. -/
theorem C6_timer_witness :
    handleEvent c6defaults none [] false (.timer "t".toList 200 []) 0 ExpState.empty =
      some c6state ∧
    obsOf c6state.reg.summaryObs ("t".toList, []) = [200 / 1000] ∧
    c6state.eventStats.timer = 1 ∧
    (findVal c6state.labelValues ("t".toList, [])).map
      (fun lv => (lv.lastRegisteredAt, lv.ttl)) = some (0, 0) := by
  have hrun : handleEvent c6defaults none [] false (.timer "t".toList 200 []) 0
      ExpState.empty = some c6state := by
    with_unfolding_all decide
  have hres : resolveNameLabels (.timer "t".toList 200 []) (effectiveMapping c6defaults none)
      [] false ExpState.empty =
      some ("t".toList, [], { ExpState.empty with eventsUnmapped := 1 }) := by
    with_unfolding_all decide
  have hget : summaryGet ({ ExpState.empty with eventsUnmapped := 1 } : ExpState).reg
      "t".toList [] (effHelp (effectiveMapping c6defaults none))
      (effectiveMapping c6defaults none) c6defaults = (true, c6reg) := by
    with_unfolding_all decide
  have hmain := (C6_timer_routes_and_observes c6defaults none [] false "t".toList 200 [] 0
    ExpState.empty "t".toList [] { ExpState.empty with eventsUnmapped := 1 } hres
    (by with_unfolding_all decide)).2 (by with_unfolding_all decide) c6reg hget c6state hrun
  refine ⟨hrun, ?_, ?_, ?_⟩
  · exact hmain.1.trans (by with_unfolding_all decide)
  · exact hmain.2.1.trans (by with_unfolding_all decide)
  · exact hmain.2.2.trans (by with_unfolding_all decide)

/-! ## C3: registration and conflicts -/

theorem containerGet_expo_nodup {elems : List (GoStr × Vec)} {expo calls : List GoStr}
    {name : GoStr} {lnames : List GoStr} {vec : Vec} (h : expo.Nodup) :
    (containerGet elems expo calls name lnames vec).expo.Nodup := by
  unfold containerGet
  cases hf : findVal elems name with
  | some v =>
    show (if v.names = lnames then (⟨true, elems, expo, calls⟩ : GetRes)
        else ⟨false, elems, expo, calls⟩).expo.Nodup
    split <;> exact h
  | none =>
    show (if name ∈ expo then (⟨false, elems, expo, calls ++ [name]⟩ : GetRes)
        else ⟨true, setVal elems name vec, expo ++ [name], calls ++ [name]⟩).expo.Nodup
    by_cases hm : name ∈ expo
    · rw [if_pos hm]
      exact h
    · rw [if_neg hm]
      refine h.append (List.nodup_singleton name) ?_
      intro x hx hxs
      rw [List.mem_singleton] at hxs
      exact hm (hxs ▸ hx)

theorem containerGet_not_ok (elems : List (GoStr × Vec)) (expo calls : List GoStr)
    (name : GoStr) (lnames : List GoStr) (vec : Vec)
    (h : ¬ (containerGet elems expo calls name lnames vec).ok = true) :
    (containerGet elems expo calls name lnames vec).elems = elems ∧
    (containerGet elems expo calls name lnames vec).expo = expo := by
  unfold containerGet at h ⊢
  cases hf : findVal elems name with
  | some v =>
    constructor
    · show (if v.names = lnames then (⟨true, elems, expo, calls⟩ : GetRes)
          else ⟨false, elems, expo, calls⟩).elems = elems
      split <;> rfl
    · show (if v.names = lnames then (⟨true, elems, expo, calls⟩ : GetRes)
          else ⟨false, elems, expo, calls⟩).expo = expo
      split <;> rfl
  | none =>
    by_cases hm : name ∈ expo
    · constructor
      · show (if name ∈ expo then (⟨false, elems, expo, calls ++ [name]⟩ : GetRes)
            else ⟨true, setVal elems name vec, expo ++ [name], calls ++ [name]⟩).elems = elems
        rw [if_pos hm]
      · show (if name ∈ expo then (⟨false, elems, expo, calls ++ [name]⟩ : GetRes)
            else ⟨true, setVal elems name vec, expo ++ [name], calls ++ [name]⟩).expo = expo
        rw [if_pos hm]
    · exfalso
      rw [hf] at h
      apply h
      show (if name ∈ expo then (⟨false, elems, expo, calls ++ [name]⟩ : GetRes)
          else ⟨true, setVal elems name vec, expo ++ [name], calls ++ [name]⟩).ok = true
      rw [if_neg hm]

theorem counterGet_expo_nodup (reg : RegState) (n : GoStr) (l : Labels) (hh : GoStr)
    (h : reg.expo.Nodup) : ((counterGet reg n l hh).2).expo.Nodup := by
  simp only [counterGet]
  split <;> exact containerGet_expo_nodup h

theorem gaugeGet_expo_nodup (reg : RegState) (n : GoStr) (l : Labels) (hh : GoStr)
    (h : reg.expo.Nodup) : ((gaugeGet reg n l hh).2).expo.Nodup := by
  simp only [gaugeGet]
  split <;> exact containerGet_expo_nodup h

theorem summaryGet_expo_nodup (reg : RegState) (n : GoStr) (l : Labels) (hh : GoStr)
    (mp : MetricMapping) (d : MapperDefaults)
    (h : reg.expo.Nodup) : ((summaryGet reg n l hh mp d).2).expo.Nodup := by
  simp only [summaryGet]
  split <;> split <;> exact containerGet_expo_nodup h

theorem histogramGet_expo_nodup (reg : RegState) (n : GoStr) (l : Labels) (hh : GoStr)
    (mp : MetricMapping) (d : MapperDefaults)
    (h : reg.expo.Nodup) : ((histogramGet reg n l hh mp d).2).expo.Nodup := by
  simp only [histogramGet]
  split <;> split <;> exact containerGet_expo_nodup h

theorem handleCounter_expo_nodup (s : ExpState) (name : GoStr) (plabels : Labels)
    (help : GoStr) (ttl now v : ℚ) (h : s.reg.expo.Nodup) :
    (handleCounter s name plabels help ttl now v).reg.expo.Nodup := by
  have hget : ((counterGet s.reg name plabels help).2).expo.Nodup :=
    counterGet_expo_nodup _ _ _ _ h
  unfold handleCounter
  split
  · exact h
  · cases hg : counterGet s.reg name plabels help with
    | mk ok reg' =>
      rw [hg] at hget
      cases ok
      · exact hget
      · show ((saveLabelValues { s with reg := counterAdd reg' name plabels v }
            name plabels ttl now).reg).expo.Nodup
        rw [saveLabelValues_reg]
        exact hget

theorem gaugeApply_expo (r : RegState) (name : GoStr) (plabels : Labels) (v : ℚ)
    (relative : Bool) :
    (if relative then gaugeAdd r name plabels v else gaugeSet r name plabels v).expo =
      r.expo := by
  cases relative <;> rfl

theorem handleGauge_expo_nodup (s : ExpState) (name : GoStr) (plabels : Labels)
    (help : GoStr) (ttl now v : ℚ) (relative : Bool) (h : s.reg.expo.Nodup) :
    (handleGauge s name plabels help ttl now v relative).reg.expo.Nodup := by
  have hget : ((gaugeGet s.reg name plabels help).2).expo.Nodup :=
    gaugeGet_expo_nodup _ _ _ _ h
  unfold handleGauge
  cases hg : gaugeGet s.reg name plabels help with
  | mk ok reg' =>
    rw [hg] at hget
    cases ok
    · exact hget
    · show ((saveLabelValues
          { s with reg := if relative then gaugeAdd reg' name plabels v
              else gaugeSet reg' name plabels v }
          name plabels ttl now).reg).expo.Nodup
      rw [saveLabelValues_reg]
      show ((if relative then gaugeAdd reg' name plabels v
          else gaugeSet reg' name plabels v)).expo.Nodup
      rw [gaugeApply_expo]
      exact hget

theorem handleTimer_expo_nodup (d : MapperDefaults) (mapping : MetricMapping)
    (s : ExpState) (name : GoStr) (plabels : Labels) (help : GoStr) (now v : ℚ)
    (h : s.reg.expo.Nodup) :
    (handleTimer d mapping s name plabels help now v).reg.expo.Nodup := by
  unfold handleTimer
  split
  · have hget : ((histogramGet s.reg name plabels help mapping d).2).expo.Nodup :=
      histogramGet_expo_nodup _ _ _ _ _ _ h
    cases hg : histogramGet s.reg name plabels help mapping d with
    | mk ok reg' =>
      rw [hg] at hget
      cases ok
      · exact hget
      · show ((saveLabelValues
            { s with reg := histogramObserve reg' name plabels (v / 1000) }
            name plabels mapping.ttl now).reg).expo.Nodup
        rw [saveLabelValues_reg]
        exact hget
  · have hget : ((summaryGet s.reg name plabels help mapping d).2).expo.Nodup :=
      summaryGet_expo_nodup _ _ _ _ _ _ h
    cases hg : summaryGet s.reg name plabels help mapping d with
    | mk ok reg' =>
      rw [hg] at hget
      cases ok
      · exact hget
      · show ((saveLabelValues
            { s with reg := summaryObserve reg' name plabels (v / 1000) }
            name plabels mapping.ttl now).reg).expo.Nodup
        rw [saveLabelValues_reg]
        exact hget

theorem handleCounter_conflict_eq {s : ExpState} {name : GoStr} {plabels : Labels}
    {help : GoStr} {ttl now v : ℚ} {reg' : RegState} (hv : ¬ v < 0)
    (hg : counterGet s.reg name plabels help = (false, reg')) :
    handleCounter s name plabels help ttl now v =
      { s with
        reg := reg'
        conflictingEventStats := s.conflictingEventStats.incCounter } := by
  unfold handleCounter
  rw [if_neg hv, hg]
  rfl

theorem counterGet_false_contents {reg : RegState} {n : GoStr} {l : Labels} {hh : GoStr}
    {reg' : RegState} (hg : counterGet reg n l hh = (false, reg')) :
    reg'.expo = reg.expo ∧ reg'.counters = reg.counters ∧
    reg'.counterVals = reg.counterVals ∧ reg'.gauges = reg.gauges ∧
    reg'.gaugeVals = reg.gaugeVals ∧ reg'.summaries = reg.summaries ∧
    reg'.summaryObs = reg.summaryObs ∧ reg'.histograms = reg.histograms ∧
    reg'.histogramObs = reg.histogramObs := by
  simp only [counterGet] at hg
  split at hg
  · injection hg with h1 _
    exact absurd h1 (by decide)
  · rename_i hok
    injection hg with h1 h2
    have hc := containerGet_not_ok _ _ _ _ _ _ hok
    rw [← h2]
    exact ⟨hc.2, hc.1, rfl, rfl, rfl, rfl, rfl, rfl, rfl⟩

/-- C3 (amended): the exposition library's registration table never holds a
name twice — `handleEvent` preserves no-duplicates of the successfully
registered names, so a name is *successfully* registered at most once — and
when a `get` hits a registration/label conflict for a counter event the
dispatcher drops the event: the resulting state is the pre-dispatch state
with only `conflicting_event_stats{counter}` bumped, and the registry
contents (registered names, the four `Elements` tables, every child series)
are unchanged.  The original claim's "at most one registration *call* per
name over the process lifetime" is false: a failed registration is retried
on every later event for that name (see the counterexample). -/
theorem C3_registration_conflicts :
    (∀ (d : MapperDefaults) (m : Option MetricMapping) (ml : Labels) (p : Bool)
      (ev : Event) (now : ℚ) (s s' : ExpState), s.reg.expo.Nodup →
        handleEvent d m ml p ev now s = some s' → s'.reg.expo.Nodup) ∧
    (∀ (d : MapperDefaults) (m : Option MetricMapping) (ml : Labels) (p : Bool)
      (nm : GoStr) (v : ℚ) (lb : Labels) (now : ℚ) (s : ExpState)
      (name : GoStr) (plabels : Labels) (s₁ : ExpState) (reg' : RegState),
        resolveNameLabels (.counter nm v lb) (effectiveMapping d m) ml p s =
          some (name, plabels, s₁) →
        (effectiveMapping d m).action ≠ ActionType.drop → ¬ v < 0 →
        counterGet s₁.reg name plabels (effHelp (effectiveMapping d m)) = (false, reg') →
        handleEvent d m ml p (.counter nm v lb) now s =
          some { s₁ with
            reg := reg'
            conflictingEventStats := s₁.conflictingEventStats.incCounter } ∧
        reg'.expo = s₁.reg.expo ∧ reg'.counters = s₁.reg.counters ∧
        reg'.counterVals = s₁.reg.counterVals ∧ reg'.gauges = s₁.reg.gauges ∧
        reg'.gaugeVals = s₁.reg.gaugeVals ∧ reg'.summaries = s₁.reg.summaries ∧
        reg'.summaryObs = s₁.reg.summaryObs ∧ reg'.histograms = s₁.reg.histograms ∧
        reg'.histogramObs = s₁.reg.histogramObs) := by
  constructor
  · intro d m ml p ev now s s' hnd h
    simp only [handleEvent] at h
    split at h
    · injection h with h
      rw [← h]
      exact hnd
    · cases hres : resolveNameLabels ev (effectiveMapping d m) ml p s with
      | none =>
        rw [hres] at h
        exact absurd h (by simp)
      | some t =>
        obtain ⟨name, plabels, s₁⟩ := t
        rw [hres] at h
        have h1 : s₁.reg.expo.Nodup := by
          rw [(resolveNameLabels_fields hres).1]
          exact hnd
        cases ev with
        | counter nm v lb =>
          simp only [Option.some.injEq] at h
          rw [← h]
          exact handleCounter_expo_nodup _ _ _ _ _ _ _ h1
        | gauge nm v rel lb =>
          simp only [Option.some.injEq] at h
          rw [← h]
          exact handleGauge_expo_nodup _ _ _ _ _ _ _ _ h1
        | timer nm v lb =>
          simp only [Option.some.injEq] at h
          rw [← h]
          exact handleTimer_expo_nodup _ _ _ _ _ _ _ _ h1
  · intro d m ml p nm v lb now s name plabels s₁ reg' hres hact hv hget
    refine ⟨?_, counterGet_false_contents hget⟩
    unfold handleEvent
    rw [if_neg hact, hres]
    exact congrArg some (handleCounter_conflict_eq hv hget)




/-- C3 counterexample: the claim says at most one registration call is made
per name over the process lifetime.  After the trace gauge `foo`, counter
`foo`, counter `foo`, the exposition library's register function has been
called three times for `foo`: once successfully by the gauge container, then
once by the counter container for each counter event — a failed registration
is not remembered, so it is retried on every later event. -/
theorem C3_cex_register_called_repeatedly :
    c3registerCount = 3 ∧ ¬ c3registerCount ≤ 1 := by
  constructor <;> with_unfolding_all decide



/-- C3 witness: the amended theorem applied concretely — after gauge `foo`
registered the name, a counter event `foo` hits the conflict, is dropped
with `conflicting_event_stats{counter}` bumped, and the registry contents
are unchanged. -/
theorem C3_registration_witness :
    c3s.reg.expo.Nodup ∧
    handleEvent c3defaults none [] false (.counter "foo".toList 1 []) 0 c3s =
      some { { c3s with eventsUnmapped := c3s.eventsUnmapped + 1 } with
        reg := c3reg
        conflictingEventStats :=
          ({ c3s with eventsUnmapped := c3s.eventsUnmapped + 1 } :
            ExpState).conflictingEventStats.incCounter } ∧
    c3reg.expo = c3s.reg.expo ∧ c3reg.counterVals = c3s.reg.counterVals := by
  have hrun : handleEvent c3defaults none [] false (.gauge "foo".toList 1 false []) 0
      ExpState.empty = some c3s := by
    with_unfolding_all decide
  have h1 := C3_registration_conflicts.1 c3defaults none [] false
    (.gauge "foo".toList 1 false []) 0 ExpState.empty c3s (by decide) hrun
  have hres : resolveNameLabels (.counter "foo".toList 1 [])
      (effectiveMapping c3defaults none) [] false c3s =
      some ("foo".toList, [], { c3s with eventsUnmapped := c3s.eventsUnmapped + 1 }) := by
    with_unfolding_all decide
  have hget : counterGet ({ c3s with eventsUnmapped := c3s.eventsUnmapped + 1 } :
      ExpState).reg "foo".toList [] (effHelp (effectiveMapping c3defaults none)) =
      (false, c3reg) := by
    with_unfolding_all decide
  have h2 := C3_registration_conflicts.2 c3defaults none [] false "foo".toList 1 [] 0
    c3s "foo".toList [] _ c3reg hres (by with_unfolding_all decide) (by norm_num) hget
  exact ⟨h1, h2.1, h2.2.1, h2.2.2.2.1⟩

/-! ## C4: the TTL sweeper -/

theorem delVal_preserves_none {κ α : Type} [DecidableEq κ] {l : List (κ × α)} {k k' : κ}
    (h : findVal l k' = none) : findVal (delVal l k) k' = none := by
  rw [findVal_delVal]
  split
  · rfl
  · exact h

theorem mem_delVal {κ α : Type} [DecidableEq κ] {l : List (κ × α)} {k : κ}
    {kv : κ × α} (h : kv ∈ delVal l k) : kv ∈ l := by
  induction l with
  | nil => simp [delVal] at h
  | cons p rest ih =>
    rw [delVal] at h
    split at h
    · exact List.mem_cons_of_mem _ (ih h)
    · rcases List.mem_cons.mp h with he | hm
      · exact he ▸ List.mem_cons_self p rest
      · exact List.mem_cons_of_mem _ (ih hm)



theorem famWF_delVal {α : Type} {vals : List (SeriesKey × α)}
    {elems : List (GoStr × Vec)} (h : famWF vals elems) (k : SeriesKey) :
    famWF (delVal vals k) elems :=
  fun kv hm => h kv (mem_delVal hm)

theorem counterDelete_gaugeVals (reg : RegState) (n : GoStr) (l : Labels) :
    (counterDelete reg n l).gaugeVals = reg.gaugeVals := by
  unfold counterDelete
  split <;> rfl

theorem counterDelete_summaryObs (reg : RegState) (n : GoStr) (l : Labels) :
    (counterDelete reg n l).summaryObs = reg.summaryObs := by
  unfold counterDelete
  split <;> rfl

theorem counterDelete_histogramObs (reg : RegState) (n : GoStr) (l : Labels) :
    (counterDelete reg n l).histogramObs = reg.histogramObs := by
  unfold counterDelete
  split <;> rfl

theorem gaugeDelete_counterVals (reg : RegState) (n : GoStr) (l : Labels) :
    (gaugeDelete reg n l).counterVals = reg.counterVals := by
  unfold gaugeDelete
  split <;> rfl

theorem gaugeDelete_summaryObs (reg : RegState) (n : GoStr) (l : Labels) :
    (gaugeDelete reg n l).summaryObs = reg.summaryObs := by
  unfold gaugeDelete
  split <;> rfl

theorem gaugeDelete_histogramObs (reg : RegState) (n : GoStr) (l : Labels) :
    (gaugeDelete reg n l).histogramObs = reg.histogramObs := by
  unfold gaugeDelete
  split <;> rfl

theorem summaryDelete_counterVals (reg : RegState) (n : GoStr) (l : Labels) :
    (summaryDelete reg n l).counterVals = reg.counterVals := by
  unfold summaryDelete
  split <;> rfl

theorem summaryDelete_gaugeVals (reg : RegState) (n : GoStr) (l : Labels) :
    (summaryDelete reg n l).gaugeVals = reg.gaugeVals := by
  unfold summaryDelete
  split <;> rfl

theorem summaryDelete_histogramObs (reg : RegState) (n : GoStr) (l : Labels) :
    (summaryDelete reg n l).histogramObs = reg.histogramObs := by
  unfold summaryDelete
  split <;> rfl

theorem histogramDelete_counterVals (reg : RegState) (n : GoStr) (l : Labels) :
    (histogramDelete reg n l).counterVals = reg.counterVals := by
  unfold histogramDelete
  split <;> rfl

theorem histogramDelete_gaugeVals (reg : RegState) (n : GoStr) (l : Labels) :
    (histogramDelete reg n l).gaugeVals = reg.gaugeVals := by
  unfold histogramDelete
  split <;> rfl

theorem histogramDelete_summaryObs (reg : RegState) (n : GoStr) (l : Labels) :
    (histogramDelete reg n l).summaryObs = reg.summaryObs := by
  unfold histogramDelete
  split <;> rfl

theorem counterDelete_counterVals_none {reg : RegState} {n : GoStr} {l : Labels}
    {k : SeriesKey} (h : findVal reg.counterVals k = none) :
    findVal (counterDelete reg n l).counterVals k = none := by
  unfold counterDelete
  split
  · exact delVal_preserves_none h
  · exact h

theorem counterDelete_WF (reg : RegState) (n : GoStr) (l : Labels)
    (h : RegWF reg) : RegWF (counterDelete reg n l) := by
  unfold counterDelete
  split
  · exact ⟨famWF_delVal h.1 (n, canonLabels l), h.2.1, h.2.2.1, h.2.2.2⟩
  · exact h

theorem counterDelete_removes {reg : RegState} {n : GoStr} {l : Labels}
    (h : famWF reg.counterVals reg.counters) :
    findVal (counterDelete reg n l).counterVals (n, canonLabels l) = none := by
  unfold counterDelete
  split
  · show findVal (delVal reg.counterVals (n, canonLabels l)) (n, canonLabels l) = none
    rw [findVal_delVal]
    simp
  · rename_i hname
    cases hchild : findVal reg.counterVals (n, canonLabels l) with
    | none => rfl
    | some v =>
      exact absurd (h _ (findVal_some_mem hchild)) hname

theorem gaugeDelete_gaugeVals_none {reg : RegState} {n : GoStr} {l : Labels}
    {k : SeriesKey} (h : findVal reg.gaugeVals k = none) :
    findVal (gaugeDelete reg n l).gaugeVals k = none := by
  unfold gaugeDelete
  split
  · exact delVal_preserves_none h
  · exact h

theorem gaugeDelete_WF (reg : RegState) (n : GoStr) (l : Labels)
    (h : RegWF reg) : RegWF (gaugeDelete reg n l) := by
  unfold gaugeDelete
  split
  · exact ⟨h.1, famWF_delVal h.2.1 (n, canonLabels l), h.2.2.1, h.2.2.2⟩
  · exact h

theorem gaugeDelete_removes {reg : RegState} {n : GoStr} {l : Labels}
    (h : famWF reg.gaugeVals reg.gauges) :
    findVal (gaugeDelete reg n l).gaugeVals (n, canonLabels l) = none := by
  unfold gaugeDelete
  split
  · show findVal (delVal reg.gaugeVals (n, canonLabels l)) (n, canonLabels l) = none
    rw [findVal_delVal]
    simp
  · rename_i hname
    cases hchild : findVal reg.gaugeVals (n, canonLabels l) with
    | none => rfl
    | some v =>
      exact absurd (h _ (findVal_some_mem hchild)) hname

theorem summaryDelete_summaryObs_none {reg : RegState} {n : GoStr} {l : Labels}
    {k : SeriesKey} (h : findVal reg.summaryObs k = none) :
    findVal (summaryDelete reg n l).summaryObs k = none := by
  unfold summaryDelete
  split
  · exact delVal_preserves_none h
  · exact h

theorem summaryDelete_WF (reg : RegState) (n : GoStr) (l : Labels)
    (h : RegWF reg) : RegWF (summaryDelete reg n l) := by
  unfold summaryDelete
  split
  · exact ⟨h.1, h.2.1, famWF_delVal h.2.2.1 (n, canonLabels l), h.2.2.2⟩
  · exact h

theorem summaryDelete_removes {reg : RegState} {n : GoStr} {l : Labels}
    (h : famWF reg.summaryObs reg.summaries) :
    findVal (summaryDelete reg n l).summaryObs (n, canonLabels l) = none := by
  unfold summaryDelete
  split
  · show findVal (delVal reg.summaryObs (n, canonLabels l)) (n, canonLabels l) = none
    rw [findVal_delVal]
    simp
  · rename_i hname
    cases hchild : findVal reg.summaryObs (n, canonLabels l) with
    | none => rfl
    | some v =>
      exact absurd (h _ (findVal_some_mem hchild)) hname

theorem histogramDelete_histogramObs_none {reg : RegState} {n : GoStr} {l : Labels}
    {k : SeriesKey} (h : findVal reg.histogramObs k = none) :
    findVal (histogramDelete reg n l).histogramObs k = none := by
  unfold histogramDelete
  split
  · exact delVal_preserves_none h
  · exact h

theorem histogramDelete_WF (reg : RegState) (n : GoStr) (l : Labels)
    (h : RegWF reg) : RegWF (histogramDelete reg n l) := by
  unfold histogramDelete
  split
  · exact ⟨h.1, h.2.1, h.2.2.1, famWF_delVal h.2.2.2 (n, canonLabels l)⟩
  · exact h

theorem histogramDelete_removes {reg : RegState} {n : GoStr} {l : Labels}
    (h : famWF reg.histogramObs reg.histograms) :
    findVal (histogramDelete reg n l).histogramObs (n, canonLabels l) = none := by
  unfold histogramDelete
  split
  · show findVal (delVal reg.histogramObs (n, canonLabels l)) (n, canonLabels l) = none
    rw [findVal_delVal]
    simp
  · rename_i hname
    cases hchild : findVal reg.histogramObs (n, canonLabels l) with
    | none => rfl
    | some v =>
      exact absurd (h _ (findVal_some_mem hchild)) hname

theorem familiesDelete_WF {reg : RegState} {n : GoStr} {l : Labels}
    (h : RegWF reg) : RegWF (familiesDelete reg n l) :=
  histogramDelete_WF _ _ _ (summaryDelete_WF _ _ _ (gaugeDelete_WF _ _ _ (counterDelete_WF _ _ _ h)))

theorem familiesDelete_counterVals_none {reg : RegState} {n' : GoStr} {l' : Labels}
    {k : SeriesKey} (h : findVal reg.counterVals k = none) :
    findVal (familiesDelete reg n' l').counterVals k = none := by
  unfold familiesDelete
  rw [histogramDelete_counterVals, summaryDelete_counterVals, gaugeDelete_counterVals]
  exact counterDelete_counterVals_none h

theorem familiesDelete_gaugeVals_none {reg : RegState} {n' : GoStr} {l' : Labels}
    {k : SeriesKey} (h : findVal reg.gaugeVals k = none) :
    findVal (familiesDelete reg n' l').gaugeVals k = none := by
  unfold familiesDelete
  rw [histogramDelete_gaugeVals, summaryDelete_gaugeVals]
  refine gaugeDelete_gaugeVals_none ?_
  rw [counterDelete_gaugeVals]
  exact h

theorem familiesDelete_summaryObs_none {reg : RegState} {n' : GoStr} {l' : Labels}
    {k : SeriesKey} (h : findVal reg.summaryObs k = none) :
    findVal (familiesDelete reg n' l').summaryObs k = none := by
  unfold familiesDelete
  rw [histogramDelete_summaryObs]
  refine summaryDelete_summaryObs_none ?_
  rw [gaugeDelete_summaryObs, counterDelete_summaryObs]
  exact h

theorem familiesDelete_histogramObs_none {reg : RegState} {n' : GoStr} {l' : Labels}
    {k : SeriesKey} (h : findVal reg.histogramObs k = none) :
    findVal (familiesDelete reg n' l').histogramObs k = none := by
  unfold familiesDelete
  refine histogramDelete_histogramObs_none ?_
  rw [summaryDelete_histogramObs, gaugeDelete_histogramObs, counterDelete_histogramObs]
  exact h

/-- The sweeper's per-record delete reaches all four family registries: after
`familiesDelete` the child keyed by (name, labels) is in none of them. -/
theorem familiesDelete_removes (reg : RegState) (n : GoStr) (l : Labels)
    (hWF : RegWF reg) :
    findVal (familiesDelete reg n l).counterVals (n, canonLabels l) = none ∧
    findVal (familiesDelete reg n l).gaugeVals (n, canonLabels l) = none ∧
    findVal (familiesDelete reg n l).summaryObs (n, canonLabels l) = none ∧
    findVal (familiesDelete reg n l).histogramObs (n, canonLabels l) = none := by
  have w1 := counterDelete_WF reg n l hWF
  have w2 := gaugeDelete_WF (counterDelete reg n l) n l w1
  have w3 := summaryDelete_WF (gaugeDelete (counterDelete reg n l) n l) n l w2
  refine ⟨?_, ?_, ?_, ?_⟩
  · rw [familiesDelete, histogramDelete_counterVals, summaryDelete_counterVals,
      gaugeDelete_counterVals]
    exact counterDelete_removes hWF.1
  · rw [familiesDelete, histogramDelete_gaugeVals, summaryDelete_gaugeVals]
    exact gaugeDelete_removes w1.2.1
  · rw [familiesDelete, histogramDelete_summaryObs]
    exact summaryDelete_removes w2.2.2.1
  · rw [familiesDelete]
    exact histogramDelete_removes w3.2.2.2

/-- Properties preserved by `familiesDelete` are preserved by the whole
sweep of the registry. -/
theorem sweepAux_preserves (P : RegState → Prop)
    (hFam : ∀ reg n l, P reg → P (familiesDelete reg n l)) (now : ℚ) :
    ∀ (lvs : List (SeriesKey × LVRecord)) (reg : RegState),
      P reg → P (sweepAux now lvs reg).2 := by
  intro lvs
  induction lvs with
  | nil => intro reg h; exact h
  | cons p rest ih =>
    obtain ⟨k₀, r₀⟩ := p
    intro reg h
    by_cases h0 : r₀.ttl = 0
    · simp only [sweepAux, if_pos h0]
      exact ih reg h
    · by_cases hst : r₀.lastRegisteredAt + r₀.ttl < now
      · simp only [sweepAux, if_neg h0, if_pos hst]
        exact ih _ (hFam _ _ _ h)
      · simp only [sweepAux, if_neg h0, if_neg hst]
        exact ih reg h

theorem findVal_eq_none_of_not_mem {κ α : Type} [DecidableEq κ]
    {l : List (κ × α)} {k : κ} (h : k ∉ l.map Prod.fst) : findVal l k = none := by
  induction l with
  | nil => rfl
  | cons p rest ih =>
    have hp : ¬ p.1 = k := fun e => h (e ▸ List.mem_map_of_mem Prod.fst (List.mem_cons_self p rest))
    rw [findVal, if_neg hp]
    exact ih (fun hm => h (List.mem_cons_of_mem _ hm))

theorem sweepAux_findVal_none (now : ℚ) :
    ∀ (lvs : List (SeriesKey × LVRecord)) (reg : RegState) (key : SeriesKey),
      findVal lvs key = none → findVal (sweepAux now lvs reg).1 key = none := by
  intro lvs
  induction lvs with
  | nil => intro reg key _; rfl
  | cons p rest ih =>
    obtain ⟨k₀, r₀⟩ := p
    intro reg key h
    have hk : ¬ (k₀, r₀).1 = key := by
      intro e
      rw [findVal, if_pos e] at h
      cases h
    rw [findVal, if_neg hk] at h
    by_cases h0 : r₀.ttl = 0
    · simp only [sweepAux, if_pos h0]
      show findVal ((k₀, r₀) :: (sweepAux now rest reg).1) key = none
      rw [findVal, if_neg hk]
      exact ih reg key h
    · by_cases hst : r₀.lastRegisteredAt + r₀.ttl < now
      · simp only [sweepAux, if_neg h0, if_pos hst]
        exact ih _ key h
      · simp only [sweepAux, if_neg h0, if_neg hst]
        show findVal ((k₀, r₀) :: (sweepAux now rest reg).1) key = none
        rw [findVal, if_neg hk]
        exact ih reg key h

/-- The stale half of the sweep: a record whose TTL is nonzero and elapsed
(strictly) is removed from the table and its children are removed from all
four family registries. -/
theorem sweepAux_removes_stale (now : ℚ) :
    ∀ (lvs : List (SeriesKey × LVRecord)) (reg : RegState) (key : SeriesKey)
      (rec : LVRecord), (lvs.map Prod.fst).Nodup → RegWF reg →
      findVal lvs key = some rec → rec.ttl ≠ 0 →
      rec.lastRegisteredAt + rec.ttl < now →
      findVal (sweepAux now lvs reg).1 key = none ∧
      findVal (sweepAux now lvs reg).2.counterVals (key.1, canonLabels rec.labels) = none ∧
      findVal (sweepAux now lvs reg).2.gaugeVals (key.1, canonLabels rec.labels) = none ∧
      findVal (sweepAux now lvs reg).2.summaryObs (key.1, canonLabels rec.labels) = none ∧
      findVal (sweepAux now lvs reg).2.histogramObs (key.1, canonLabels rec.labels) = none := by
  intro lvs
  induction lvs with
  | nil =>
    intro reg key rec _ _ hf
    rw [findVal] at hf
    cases hf
  | cons p rest ih =>
    obtain ⟨k₀, r₀⟩ := p
    intro reg key rec hnd hWF hf httl hst
    have hnd' : (rest.map Prod.fst).Nodup := (List.nodup_cons.mp hnd).2
    by_cases hk : (k₀, r₀).1 = key
    · rw [findVal, if_pos hk] at hf
      injection hf with hf
      subst hf
      simp only at hk
      subst hk
      simp only [sweepAux, if_neg httl, if_pos hst]
      have hrm := familiesDelete_removes reg k₀.1 r₀.labels hWF
      refine ⟨?_, ?_, ?_, ?_, ?_⟩
      · refine sweepAux_findVal_none now rest _ _ ?_
        exact findVal_eq_none_of_not_mem (List.nodup_cons.mp hnd).1
      · exact sweepAux_preserves
          (fun r => findVal r.counterVals (k₀.1, canonLabels r₀.labels) = none)
          (fun reg n l h => familiesDelete_counterVals_none h) now rest _ hrm.1
      · exact sweepAux_preserves
          (fun r => findVal r.gaugeVals (k₀.1, canonLabels r₀.labels) = none)
          (fun reg n l h => familiesDelete_gaugeVals_none h) now rest _ hrm.2.1
      · exact sweepAux_preserves
          (fun r => findVal r.summaryObs (k₀.1, canonLabels r₀.labels) = none)
          (fun reg n l h => familiesDelete_summaryObs_none h) now rest _ hrm.2.2.1
      · exact sweepAux_preserves
          (fun r => findVal r.histogramObs (k₀.1, canonLabels r₀.labels) = none)
          (fun reg n l h => familiesDelete_histogramObs_none h) now rest _ hrm.2.2.2
    · rw [findVal, if_neg hk] at hf
      by_cases h0 : r₀.ttl = 0
      · simp only [sweepAux, if_pos h0]
        have hrest := ih reg key rec hnd' hWF hf httl hst
        refine ⟨?_, hrest.2.1, hrest.2.2.1, hrest.2.2.2.1, hrest.2.2.2.2⟩
        show findVal ((k₀, r₀) :: (sweepAux now rest reg).1) key = none
        rw [findVal, if_neg hk]
        exact hrest.1
      · by_cases hstale : r₀.lastRegisteredAt + r₀.ttl < now
        · simp only [sweepAux, if_neg h0, if_pos hstale]
          exact ih _ key rec hnd' (familiesDelete_WF hWF) hf httl hst
        · simp only [sweepAux, if_neg h0, if_neg hstale]
          have hrest := ih reg key rec hnd' hWF hf httl hst
          refine ⟨?_, hrest.2.1, hrest.2.2.1, hrest.2.2.2.1, hrest.2.2.2.2⟩
          show findVal ((k₀, r₀) :: (sweepAux now rest reg).1) key = none
          rw [findVal, if_neg hk]
          exact hrest.1

/-- The `ttl = 0` half of the sweep: a record with TTL zero survives
unchanged. -/
theorem sweepAux_keeps_ttl0 (now : ℚ) :
    ∀ (lvs : List (SeriesKey × LVRecord)) (reg : RegState) (key : SeriesKey)
      (rec : LVRecord), findVal lvs key = some rec → rec.ttl = 0 →
      findVal (sweepAux now lvs reg).1 key = some rec := by
  intro lvs
  induction lvs with
  | nil =>
    intro reg key rec hf
    rw [findVal] at hf
    cases hf
  | cons p rest ih =>
    obtain ⟨k₀, r₀⟩ := p
    intro reg key rec hf h0
    by_cases hk : (k₀, r₀).1 = key
    · rw [findVal, if_pos hk] at hf
      injection hf with hf
      subst hf
      simp only [sweepAux, if_pos h0]
      show findVal ((k₀, r₀) :: (sweepAux now rest reg).1) key = some r₀
      rw [findVal, if_pos hk]
    · rw [findVal, if_neg hk] at hf
      by_cases h0' : r₀.ttl = 0
      · simp only [sweepAux, if_pos h0']
        show findVal ((k₀, r₀) :: (sweepAux now rest reg).1) key = some rec
        rw [findVal, if_neg hk]
        exact ih reg key rec hf h0
      · by_cases hstale : r₀.lastRegisteredAt + r₀.ttl < now
        · simp only [sweepAux, if_neg h0', if_pos hstale]
          exact ih _ key rec hf h0
        · simp only [sweepAux, if_neg h0', if_neg hstale]
          show findVal ((k₀, r₀) :: (sweepAux now rest reg).1) key = some rec
          rw [findVal, if_neg hk]
          exact ih reg key rec hf h0

/-- C4 (amended): at a sweep tick at time `now`, a LabelSetRecord with
`ttl > 0` is removed — and its (name, labels) child is deleted from all four
family registries — exactly when `lastRegisteredAt + ttl < now` holds
STRICTLY (the code uses `Before`, so at `now − lastRegisteredAt = ttl` the
record survives the tick: see the counterexample); a record with `ttl = 0`
is never removed.  Stated over registries whose children belong to known
names and duplicate-free record tables, both of which hold for every
reachable state. -/
theorem C4_ttl_sweep (now : ℚ) (s : ExpState) (key : SeriesKey) (rec : LVRecord)
    (hnd : (s.labelValues.map Prod.fst).Nodup) (hWF : RegWF s.reg)
    (hfind : findVal s.labelValues key = some rec) :
    (rec.ttl ≠ 0 → rec.lastRegisteredAt + rec.ttl < now →
      findVal (removeStaleMetrics now s).labelValues key = none ∧
      findVal (removeStaleMetrics now s).reg.counterVals
        (key.1, canonLabels rec.labels) = none ∧
      findVal (removeStaleMetrics now s).reg.gaugeVals
        (key.1, canonLabels rec.labels) = none ∧
      findVal (removeStaleMetrics now s).reg.summaryObs
        (key.1, canonLabels rec.labels) = none ∧
      findVal (removeStaleMetrics now s).reg.histogramObs
        (key.1, canonLabels rec.labels) = none) ∧
    (rec.ttl = 0 → findVal (removeStaleMetrics now s).labelValues key = some rec) := by
  constructor
  · intro httl hst
    exact sweepAux_removes_stale now s.labelValues s.reg key rec hnd hWF hfind httl hst
  · intro h0
    exact sweepAux_keeps_ttl0 now s.labelValues s.reg key rec hfind h0



/-- C4 counterexample: the claim says a record is removed when
`now − last_registered_at ≥ ttl`.  At `now = 1` with `last_registered_at = 0`
and `ttl = 1` the inequality holds with equality, yet the sweeper keeps the
record: the code removes only when `lastRegisteredAt + ttl` is strictly
before `now`. -/
theorem C4_cex_boundary_survives :
    (1 : ℚ) - c4rec.lastRegisteredAt ≥ c4rec.ttl ∧ c4rec.ttl > 0 ∧
    findVal (removeStaleMetrics 1 c4state).labelValues ("x".toList, []) = some c4rec := by
  refine ⟨by norm_num [c4rec], by norm_num [c4rec], by with_unfolding_all decide⟩

/-- C4 witness: the amended theorem applied to the same record at `now = 3`,
where the TTL has strictly elapsed — the record and all four family children
are gone. -/
theorem C4_ttl_sweep_witness :
    findVal (removeStaleMetrics 3 c4state).labelValues ("x".toList, []) = none ∧
    findVal (removeStaleMetrics 3 c4state).reg.counterVals
      ("x".toList, canonLabels c4rec.labels) = none := by
  have h := (C4_ttl_sweep 3 c4state ("x".toList, []) c4rec (by decide)
    (by decide) (by with_unfolding_all decide)).1
    (by with_unfolding_all decide) (by norm_num [c4rec])
  exact ⟨h.1, h.2.1⟩

/-! ## C8: the mapper cache round-trip -/



/-- C8: the claim says the mapper cache round-trips — after `AddMatch(s, m,
l)`, `Get(s)` is a hit with `Matched = true`, `Mapping = m`, `Labels = l`,
and after `AddMiss(s)` a hit with `Matched = false`.  The repository's
fastcache/XDR variant violates this: its `Get` unmarshals the stored bytes
into the nil pointer `var result *MetricMapperCacheResult`, go-xdr rejects a
nil destination before decoding, and `Get` returns `(nil, false)` for every
key ever stored, so neither `AddMatch` nor `AddMiss` is ever observable.
The LRU variant in the same repository behaves exactly as claimed, which is
plainly the intent, so the XDR `Get` is a code bug (the spec itself flags
its round-trip as suspect). -/
theorem C8_xdr_cache_never_hits :
    xdrGet (xdrAddMatch ⟨[]⟩ "a".toList c8mapping c8labels) "a".toList = (none, false) ∧
    xdrGet (xdrAddMiss ⟨[]⟩ "a".toList) "a".toList = (none, false) ∧
    (lruGet (lruAddMatch ⟨8, []⟩ "a".toList c8mapping c8labels) "a".toList).1 =
      some ⟨some c8mapping, true, c8labels⟩ ∧
    (lruGet (lruAddMiss ⟨8, []⟩ "a".toList) "a".toList).1 = some ⟨none, false, []⟩ := by
  with_unfolding_all decide

example : lineToEvents "foo:2|c".toList =
    some ([Event.counter "foo".toList 2 []], Stats.zero.incSamplesReceived) := by
  with_unfolding_all decide

example : lineToEvents "a:1|c|#:v".toList = none := by
  with_unfolding_all decide

example : lineToEvents "c1:10|c|@0.1".toList =
    some ([Event.counter "c1".toList 100 []], Stats.zero.incSamplesReceived) := by
  with_unfolding_all decide

example : lineToEvents "x:5|ms|@0.25".toList =
    some (List.replicate 4 (Event.timer "x".toList 5 []), Stats.zero.incSamplesReceived) := by
  with_unfolding_all decide

example : lineToEvents "x:5|ms|@2".toList =
    some ([], Stats.zero.incSamplesReceived) := by
  with_unfolding_all decide

example : lineToEvents "".toList = some ([], Stats.zero) := by
  with_unfolding_all decide

example : lineToEvents "bad:abc|c".toList =
    some ([], Stats.zero.incSamplesReceived.incMalformedValue) := by
  with_unfolding_all decide

example : lineToEvents "s1:1|s".toList =
    some ([], (Stats.zero.incSamplesReceived.addIllegalEvent 1)) := by
  with_unfolding_all decide

example : lineToEvents "c2:1|c|#env:prod,region:us".toList =
    some ([Event.counter "c2".toList 1
      [("env".toList, "prod".toList), ("region".toList, "us".toList)]],
      Stats.zero.incSamplesReceived.incTagsReceived) := by
  with_unfolding_all decide

example : lineToEvents "bar:+3|g".toList =
    some ([Event.gauge "bar".toList 3 true []], Stats.zero.incSamplesReceived) := by
  with_unfolding_all decide

example : lineToEvents "bar:3|g|@0.5".toList =
    some ([Event.gauge "bar".toList 3 false []],
      Stats.zero.incSamplesReceived.incIllegalSampleFactor) := by
  with_unfolding_all decide

example : lineToEvents "a:1:2|c".toList =
    some ([Event.counter "a".toList 2 []],
      Stats.zero.incSamplesReceived.incMalformedComponent.incSamplesReceived) := by
  with_unfolding_all decide

end SE
